import Mathlib

/-!
Verification of the QuickCV résumé pipeline (validator, section transformer,
skill categorizer, paginating renderer) against its natural-language
specification.  The definitions below are a shallow embedding of the
TypeScript sources:

* `src/transformers/document-transformer-v2.ts` (the section-ordering
  transformer with the combined `experienceProjects` key, skill
  categorization, and per-section emission rules),
* `src/validators/field-validators.ts` and `src/validators/resume-validator.ts`
  (defensive validation of untrusted JSON),
* `src/utils/depth-check.ts` and `src/utils/sanitization.ts`,
* `src/renderer/pdf-renderer.ts` and `src/renderer/renderer-config.ts`
  (the cursor / page-break arithmetic of the paginating renderer).

JavaScript strings are modelled by Lean `String` (a list of characters);
the handful of JS string primitives the sources use (`trim`, `toLowerCase`,
`indexOf`, `substring`, `includes`) are defined below over the character
list, restricted to the ASCII behaviour the repository exercises.
-/

namespace QuickCV

/-! ### JavaScript string primitives -/

/-- Characters removed by `String.prototype.trim` (the whitespace forms that
occur in this repository: space, tab, newline, carriage return). -/
def jsWhitespaceChar (c : Char) : Bool :=
  c == ' ' || c == '\t' || c == '\n' || c == '\r'

/-- `trim` on the underlying character list: drop whitespace at both ends. -/
def trimChars (cs : List Char) : List Char :=
  ((cs.dropWhile jsWhitespaceChar).reverse.dropWhile jsWhitespaceChar).reverse

/-- Model of `String.prototype.trim`. -/
def jsTrim (s : String) : String :=
  ⟨trimChars s.data⟩

/-- Model of `String.prototype.toLowerCase` (ASCII range, which is all the
alias-table keys and keywords use). -/
def lowerStr (s : String) : String :=
  ⟨s.data.map Char.toLower⟩

/-- Whether `pat` is a prefix of `cs` (character-wise). -/
def charsPrefixOf : List Char → List Char → Bool
  | [], _ => true
  | _ :: _, [] => false
  | a :: as, b :: bs => a == b && charsPrefixOf as bs

/-- First index at which `pat` occurs in `cs`, if any. -/
def findSub (pat : List Char) : List Char → Option Nat
  | [] => if charsPrefixOf pat [] then some 0 else none
  | c :: rest =>
    if charsPrefixOf pat (c :: rest) then some 0
    else (findSub pat rest).map (· + 1)

/-- Model of `String.prototype.indexOf` (`none` plays the role of `-1`). -/
def strIndexOf (s pat : String) : Option Nat :=
  findSub pat.data s.data

/-- Model of `String.prototype.includes` (substring test). -/
def strIncludes (s pat : String) : Bool :=
  (findSub pat.data s.data).isSome

/-- Model of `s.substring(0, n)`. -/
def strTake (s : String) (n : Nat) : String :=
  ⟨s.data.take n⟩

/-- Model of `s.substring(n)`. -/
def strDrop (s : String) (n : Nat) : String :=
  ⟨s.data.drop n⟩

/-- JS truthiness of a string (`""` is falsy). -/
def strTruthy (s : String) : Bool :=
  !(s == "")

/-- JS truthiness of an optional string field (`undefined` and `""` falsy). -/
def optTruthy : Option String → Bool
  | none => false
  | some s => strTruthy s

/-! ### Resume data model (`src/types/resume.types.ts`, as the v2 transformer
reads it: the transformer additionally accesses `contact.jobTitle`,
`education.cgpa` and `education.relevantCourseWork`). -/

structure ContactInfo where
  fullName : String
  jobTitle : Option String := none
  email : String
  phone : String
  location : String
  linkedin : Option String := none
  github : Option String := none
  portfolio : Option String := none
  twitter : Option String := none
deriving DecidableEq, Repr

structure ProfessionalSummary where
  summary : String
deriving DecidableEq, Repr

structure WorkExperience where
  company : String
  role : String
  location : Option String := none
  startDate : String
  endDate : Option String := none
  description : List String
deriving DecidableEq, Repr

structure Education where
  institution : String
  degree : String
  fieldOfStudy : Option String := none
  startDate : String
  endDate : Option String := none
  cgpa : Option String := none
  relevantCourseWork : Option (List String) := none
deriving DecidableEq, Repr

structure Skills where
  skills : List String
deriving DecidableEq, Repr

structure Project where
  name : String
  description : List String
  techStack : Option (List String) := none
  link : Option String := none
deriving DecidableEq, Repr

structure Resume where
  contact : ContactInfo
  summary : ProfessionalSummary
  experience : List WorkExperience
  education : List Education
  skills : Skills
  projects : List Project
deriving DecidableEq, Repr

/-! ### Document model (`src/types/document.types.ts`).  `LIST` items are
`{text}` records in the source; they carry only the text. -/

inductive DocumentElement where
  | HEADING (level : Nat) (text : String)
  | PARAGRAPH (text : String)
  | TEXT_LINE (text : String)
  | LIST (items : List String)
  | SECTION_BREAK
deriving DecidableEq, Repr

structure Document where
  elements : List DocumentElement
deriving DecidableEq, Repr

open DocumentElement

/-! ### Section ordering (`document-transformer-v2.ts`, the revision that
knows the virtual combined key `experienceProjects`). -/

def VALID_SECTION_KEYS : List String :=
  ["contact", "summary", "experience", "education", "skills", "projects",
   "experienceProjects"]

def DEFAULT_SECTION_ORDER : List String :=
  ["contact", "summary", "experience", "education", "skills", "projects"]

/-- The filter loop of `validateSectionOrder`: keep valid keys, first
occurrence only.  The source tracks seen keys in a `Set` that always holds
exactly the keys already pushed onto `orderedKeys`, so membership in the
accumulator is the same test. -/
def filterValidUnique : List String → List String → List String
  | acc, [] => acc
  | acc, k :: rest =>
    if VALID_SECTION_KEYS.contains k && !(acc.contains k) then
      filterValidUnique (acc ++ [k]) rest
    else
      filterValidUnique acc rest

/-- The fill loop of `validateSectionOrder`: append each canonical section
missing from the accumulator, skipping `experience`/`projects` when the
combined key is present. -/
def addMissingSections (hasExperienceProjects : Bool) :
    List String → List String → List String
  | acc, [] => acc
  | acc, k :: rest =>
    if hasExperienceProjects && (k == "experience" || k == "projects") then
      addMissingSections hasExperienceProjects acc rest
    else if acc.contains k then
      addMissingSections hasExperienceProjects acc rest
    else
      addMissingSections hasExperienceProjects (acc ++ [k]) rest

/-- `validateSectionOrder(sectionOrder?: string[])`.  `none` models a missing
or non-array argument.  When `contact` is among the filtered keys the source
moves its (unique) occurrence to the front; when absent it is prepended — in
both cases the result is `"contact"` followed by the filtered keys without
`contact`. -/
def validateSectionOrder (sectionOrder : Option (List String)) : List String :=
  match sectionOrder with
  | none => DEFAULT_SECTION_ORDER
  | some keys =>
    let orderedKeys := filterValidUnique [] keys
    let finalOrder := "contact" :: orderedKeys.erase "contact"
    let hasExperienceProjects := finalOrder.contains "experienceProjects"
    addMissingSections hasExperienceProjects finalOrder DEFAULT_SECTION_ORDER

/-! ### Per-section transformers (`document-transformer-v2.ts`) -/

/-- `transformContactSection`: H1 name, optional job title, then one line of
email/phone/location and one of the links, pipe-joined, omitting falsy
fields and empty lines. -/
def transformContactSection (resume : Resume) : List DocumentElement :=
  let contact := resume.contact
  let line1Parts :=
    (if strTruthy contact.email then [contact.email] else []) ++
    (if strTruthy contact.phone then [contact.phone] else []) ++
    (if strTruthy contact.location then [contact.location] else [])
  let line2Parts :=
    (match contact.linkedin with
     | some s => if strTruthy s then [s] else []
     | none => []) ++
    (match contact.github with
     | some s => if strTruthy s then [s] else []
     | none => []) ++
    (match contact.portfolio with
     | some s => if strTruthy s then [s] else []
     | none => []) ++
    (match contact.twitter with
     | some s => if strTruthy s then [s] else []
     | none => [])
  [HEADING 1 contact.fullName] ++
  (match contact.jobTitle with
   | some t => if strTruthy t then [TEXT_LINE t] else []
   | none => []) ++
  (if line1Parts.length > 0 then
     [TEXT_LINE (String.intercalate " | " line1Parts)]
   else []) ++
  (if line2Parts.length > 0 then
     [TEXT_LINE (String.intercalate " | " line2Parts)]
   else [])

/-- `transformSummarySection`. -/
def transformSummarySection (resume : Resume) : List DocumentElement :=
  [HEADING 2 "Professional Summary", PARAGRAPH resume.summary.summary]

/-- The date-range line of a standalone experience entry: `endDate` falls
back to the literal `"Present"` when absent or falsy. -/
def experienceDateLine (exp : WorkExperience) : String :=
  match exp.endDate with
  | some e => if strTruthy e then exp.startDate ++ " - " ++ e
              else exp.startDate ++ " - Present"
  | none => exp.startDate ++ " - Present"

/-- The company line of a standalone experience entry. -/
def experienceCompanyLine (exp : WorkExperience) : String :=
  match exp.location with
  | some l => if strTruthy l then exp.company ++ " - " ++ l else exp.company
  | none => exp.company

/-- One entry of the standalone Work Experience section. -/
def experienceEntryElems (exp : WorkExperience) : List DocumentElement :=
  [HEADING 3 exp.role,
   TEXT_LINE (experienceCompanyLine exp),
   TEXT_LINE (experienceDateLine exp)] ++
  (if exp.description.length > 0 then [LIST exp.description] else [])

/-- The `forEach` loop bodies of the standalone sections append a blank
`TEXT_LINE` after every entry except the last (`index < length - 1`). -/
def emitEntries (f : α → List DocumentElement) : List α → List DocumentElement
  | [] => []
  | [x] => f x
  | x :: y :: rest => f x ++ (TEXT_LINE "" :: emitEntries f (y :: rest))

/-- `transformExperienceSection`. -/
def transformExperienceSection (resume : Resume) : List DocumentElement :=
  if resume.experience.length == 0 then []
  else HEADING 2 "Work Experience" :: emitEntries experienceEntryElems resume.experience

/-- One entry of the Education section (v2: CGPA joined onto the date line
with a bullet, optional coursework line). -/
def educationEntryElems (edu : Education) : List DocumentElement :=
  let degreeText :=
    match edu.fieldOfStudy with
    | some f => if strTruthy f then edu.degree ++ " in " ++ f else edu.degree
    | none => edu.degree
  let dateLine :=
    match edu.endDate with
    | some e => if strTruthy e then edu.startDate ++ " - " ++ e
                else edu.startDate ++ " - Present"
    | none => edu.startDate ++ " - Present"
  let meta :=
    [dateLine] ++
    (match edu.cgpa with
     | some c => if strTruthy c then ["CGPA: " ++ c] else []
     | none => [])
  [HEADING 3 degreeText,
   TEXT_LINE edu.institution,
   TEXT_LINE (String.intercalate " • " meta)] ++
  (match edu.relevantCourseWork with
   | some courses =>
     if courses.length > 0 then
       [TEXT_LINE ("Relevant Coursework: " ++ String.intercalate ", " courses)]
     else []
   | none => [])

/-- `transformEducationSection`. -/
def transformEducationSection (resume : Resume) : List DocumentElement :=
  if resume.education.length == 0 then []
  else HEADING 2 "Education" :: emitEntries educationEntryElems resume.education

/-! ### Skill categorization (`SKILL_CATEGORIES`, `CATEGORY_ALIASES`,
`parseSkillWithCategory`, `categorizeSkillByKeyword`,
`transformSkillsSection`). -/

/-- `SKILL_CATEGORIES` in declaration order (`Object.entries` iterates it in
this order). -/
def SKILL_CATEGORIES : List (String × List String) :=
  [("Frontend",
    ["react", "vue", "angular", "svelte", "next", "nuxt", "gatsby",
     "typescript", "javascript", "html", "css", "sass", "scss", "tailwind",
     "redux", "mobx", "webpack", "vite", "babel", "jest", "testing-library"]),
   ("Backend",
    ["node", "express", "fastify", "nest", "koa",
     "python", "django", "flask", "fastapi",
     "java", "spring", "kotlin",
     "go", "golang", "gin",
     "ruby", "rails",
     "php", "laravel",
     "graphql", "rest", "api", "grpc"]),
   ("Database",
    ["postgres", "postgresql", "mysql", "sqlite", "mariadb",
     "mongodb", "dynamodb", "redis", "elasticsearch",
     "sql", "nosql", "prisma", "typeorm", "sequelize", "mongoose"]),
   ("Cloud",
    ["aws", "azure", "gcp", "google cloud",
     "docker", "kubernetes", "k8s",
     "terraform", "serverless", "lambda", "cloudformation"]),
   ("DevOps",
    ["jenkins", "github actions", "gitlab ci", "circleci",
     "ci/cd", "ansible", "argocd", "prometheus", "grafana"]),
   ("Tools",
    ["git", "github", "gitlab", "bitbucket",
     "jira", "confluence", "slack",
     "vscode", "vim", "postman", "figma",
     "linux", "bash", "shell"])]

/-- `CATEGORY_ALIASES`: lowercase prefix → canonical category name. -/
def CATEGORY_ALIASES : List (String × String) :=
  [("frontend", "Frontend"),
   ("backend", "Backend"),
   ("database", "Database"),
   ("cloud", "Cloud"),
   ("devops", "DevOps"),
   ("ci/cd", "DevOps"),
   ("cicd", "DevOps"),
   ("mobile", "Mobile"),
   ("ios", "Mobile"),
   ("android", "Mobile"),
   ("api", "API"),
   ("apis", "API"),
   ("testing", "Testing"),
   ("qa", "Testing"),
   ("security", "Security"),
   ("auth", "Security"),
   ("data", "Data"),
   ("analytics", "Data"),
   ("ml", "AI & ML"),
   ("ai", "AI & ML"),
   ("ai & ml", "AI & ML"),
   ("ai&ml", "AI & ML"),
   ("devtools", "Tools"),
   ("cli", "Tools"),
   ("tools", "Tools"),
   ("os", "Operating Systems"),
   ("linux", "Operating Systems"),
   ("windows", "Operating Systems"),
   ("operating systems", "Operating Systems"),
   ("networking", "Networking"),
   ("architecture", "Architecture"),
   ("system design", "Architecture"),
   ("cms", "CMS"),
   ("game", "Game Development"),
   ("gamedev", "Game Development"),
   ("game development", "Game Development"),
   ("other", "Other")]

/-- `categorizeSkillByKeyword`: first category (in declaration order) one of
whose keywords is a substring of the lowercased, trimmed skill; `"Other"`
when none matches. -/
def categorizeSkillByKeyword (skill : String) : String :=
  let normalizedSkill := lowerStr (jsTrim skill)
  match SKILL_CATEGORIES.find? (fun p => p.2.any (fun kw => strIncludes normalizedSkill kw)) with
  | some p => p.1
  | none => "Other"

/-- The value of the source's `category` variable, used as the key of the
categorized-skills `Map`.  `CATEGORY_ALIASES` is a plain object literal, so
the bracket access `CATEGORY_ALIASES[rawCategory.toLowerCase()]` traverses
the prototype chain: besides the own (string-valued) alias keys, the
all-lowercase own member names of `Object.prototype` hit truthy inherited
values — `"constructor"` yields the `Object` function and `"__proto__"`
yields the prototype object itself.  These two values are distinct from
every string and from each other, so as `Map` keys they form their own
buckets, modelled by the two extra constructors. -/
inductive SkillCategory where
  | name (s : String)
  | inheritedConstructor
  | inheritedProto
deriving DecidableEq, Repr

/-- `CATEGORY_ALIASES[key]` as the program evaluates it: own keys first,
then the prototype chain — `"constructor"` and `"__proto__"` are the only
member names of `Object.prototype` that are themselves lowercase, hence the
only ones a `toLowerCase()`-ed prefix can hit — and `undefined` (`none`)
otherwise. -/
def categoryAliasGet (key : String) : Option SkillCategory :=
  match CATEGORY_ALIASES.lookup key with
  | some c => some (SkillCategory.name c)
  | none =>
    if key == "constructor" then some SkillCategory.inheritedConstructor
    else if key == "__proto__" then some SkillCategory.inheritedProto
    else none

/-- Result record of `parseSkillWithCategory`. -/
structure ParsedSkill where
  category : SkillCategory
  skill : String
deriving DecidableEq, Repr

/-- `parseSkillWithCategory`: an optional `"Category: Skill"` prefix is
recognised when `": "` first occurs at a positive index and both parts are
non-empty after trimming; the category is whatever the alias-object access
yields when that value is truthy (every own alias value and both inherited
prototype members are truthy), and `"Other"` when it is `undefined`;
otherwise the whole trimmed string is categorised by keyword. -/
def parseSkillWithCategory (skillInput : String) : ParsedSkill :=
  let trimmed := jsTrim skillInput
  match strIndexOf trimmed ": " with
  | some colonIndex =>
    if colonIndex > 0 then
      let rawCategory := jsTrim (strTake trimmed colonIndex)
      let skillName := jsTrim (strDrop trimmed (colonIndex + 2))
      if rawCategory.length > 0 && skillName.length > 0 then
        { category := ((categoryAliasGet (lowerStr rawCategory)).getD
            (SkillCategory.name "Other")),
          skill := skillName }
      else
        { category := SkillCategory.name (categorizeSkillByKeyword trimmed),
          skill := trimmed }
    else
      { category := SkillCategory.name (categorizeSkillByKeyword trimmed),
        skill := trimmed }
  | none =>
    { category := SkillCategory.name (categorizeSkillByKeyword trimmed),
      skill := trimmed }

/-- `Map.set` semantics of the categorized-skills map: append to an existing
bucket, else add a new bucket at the end. -/
def mapAppend : List (SkillCategory × List String) → SkillCategory → String →
    List (SkillCategory × List String)
  | [], cat, skill => [(cat, [skill])]
  | (k, vs) :: rest, cat, skill =>
    if k == cat then (k, vs ++ [skill]) :: rest
    else (k, vs) :: mapAppend rest cat skill

/-- The fixed canonical category emission order of `transformSkillsSection`. -/
def categoryOrder : List String :=
  ["Frontend", "Backend", "Mobile", "Database", "Cloud", "DevOps", "API",
   "Testing", "Security", "Data", "AI & ML", "Tools", "Operating Systems",
   "Networking", "Architecture", "CMS", "Game Development", "Other"]

/-- The grouping loop of `transformSkillsSection`: fold every skill into the
categorized map. -/
def categorizeAll (skills : List String) : List (SkillCategory × List String) :=
  skills.foldl (fun m skillInput =>
    let p := parseSkillWithCategory skillInput
    mapAppend m p.category p.skill) []

/-- `transformSkillsSection`: group skills by parsed category (insertion
order within each bucket), then emit one `TEXT_LINE` per non-empty category
in the fixed canonical order.  The emission loop probes the map only at the
canonical string names, so a bucket keyed by an inherited prototype value is
never emitted. -/
def transformSkillsSection (resume : Resume) : List DocumentElement :=
  if resume.skills.skills.length == 0 then []
  else
    let categorizedSkills := categorizeAll resume.skills.skills
    HEADING 2 "Skills" ::
      categoryOrder.filterMap (fun category =>
        (categorizedSkills.lookup (SkillCategory.name category)).map (fun skills =>
          TEXT_LINE (category ++ ": " ++ String.intercalate ", " skills)))

/-- One entry of the standalone Projects section. -/
def projectEntryElems (project : Project) : List DocumentElement :=
  [HEADING 3 project.name] ++
  (match project.techStack with
   | some ts => if ts.length > 0 then [TEXT_LINE (String.intercalate ", " ts)] else []
   | none => []) ++
  (match project.link with
   | some l => if strTruthy l then [TEXT_LINE l] else []
   | none => []) ++
  (if project.description.length > 0 then [LIST project.description] else [])

/-- `transformProjectsSection`. -/
def transformProjectsSection (resume : Resume) : List DocumentElement :=
  if resume.projects.length == 0 then []
  else HEADING 2 "Projects" :: emitEntries projectEntryElems resume.projects

/-! ### Combined Experience & Projects section
(`transformCombinedExperienceProjectsSection`).  Note its date rendering
differs from the standalone section: an en dash joiner when `endDate` is
truthy and non-blank after trimming, otherwise the bare `startDate`. -/

/-- The date range of a combined-section experience entry. -/
def combinedDateRange (exp : WorkExperience) : String :=
  match exp.endDate with
  | some e =>
    if strTruthy e && !(jsTrim e == "") then exp.startDate ++ " – " ++ e
    else exp.startDate
  | none => exp.startDate

/-- The meta line of a combined-section experience entry: optional location
and the date range, bullet-joined (never empty: the date range is always
pushed). -/
def combinedMetaLine (exp : WorkExperience) : String :=
  String.intercalate " • "
    ((match exp.location with
      | some l => if strTruthy l then [l] else []
      | none => []) ++ [combinedDateRange exp])

/-- One experience entry of the combined section. -/
def combinedExpEntryElems (exp : WorkExperience) : List DocumentElement :=
  [HEADING 3 (exp.role ++ " at " ++ exp.company),
   TEXT_LINE (combinedMetaLine exp),
   LIST exp.description]

/-- The experience loop of the combined section: spacer after each entry
except after the last when no projects follow. -/
def combinedExpLoop (projectsLen : Nat) : List WorkExperience → List DocumentElement
  | [] => []
  | [e] => combinedExpEntryElems e ++ (if projectsLen > 0 then [TEXT_LINE ""] else [])
  | e :: f :: rest =>
    combinedExpEntryElems e ++ (TEXT_LINE "" :: combinedExpLoop projectsLen (f :: rest))

/-- One project entry of the combined section. -/
def combinedProjEntryElems (project : Project) : List DocumentElement :=
  let meta :=
    (match project.techStack with
     | some ts => if ts.length > 0 then [String.intercalate ", " ts] else []
     | none => []) ++
    (match project.link with
     | some l => if strTruthy l then [l] else []
     | none => [])
  [HEADING 3 project.name] ++
  (if meta.length > 0 then [TEXT_LINE (String.intercalate " • " meta)] else []) ++
  [LIST project.description]

/-- The project loop of the combined section: spacer between entries only. -/
def combinedProjLoop : List Project → List DocumentElement
  | [] => []
  | [p] => combinedProjEntryElems p
  | p :: q :: rest => combinedProjEntryElems p ++ (TEXT_LINE "" :: combinedProjLoop (q :: rest))

/-- `transformCombinedExperienceProjectsSection`. -/
def transformCombinedExperienceProjectsSection (resume : Resume) : List DocumentElement :=
  HEADING 2 "Experience & Projects" ::
    (combinedExpLoop resume.projects.length resume.experience ++
     combinedProjLoop resume.projects)

/-! ### Whole-document emission (`transformResumeToDocumentWithOrder`). -/

/-- The `sectionTransformers` record: dispatch on a section key.  Resolved
orders only ever contain the seven valid keys, so the default branch is
unreachable from `transformResumeToDocumentWithOrder`. -/
def sectionTransformers (resume : Resume) (key : String) : List DocumentElement :=
  if key == "contact" then transformContactSection resume
  else if key == "summary" then transformSummarySection resume
  else if key == "experience" then transformExperienceSection resume
  else if key == "education" then transformEducationSection resume
  else if key == "skills" then transformSkillsSection resume
  else if key == "projects" then transformProjectsSection resume
  else if key == "experienceProjects" then transformCombinedExperienceProjectsSection resume
  else []

/-- The `order.forEach((sectionKey, index) => ...)` loop: a non-empty
section's elements are emitted, followed by a `SECTION_BREAK` exactly when
the section's index is below `order.length - 1`. -/
def emitSections (resume : Resume) (n : Nat) : List String → Nat → List DocumentElement
  | [], _ => []
  | key :: rest, i =>
    let sectionElements := sectionTransformers resume key
    (if sectionElements.length > 0 then
       sectionElements ++ (if i < n - 1 then [SECTION_BREAK] else [])
     else []) ++ emitSections resume n rest (i + 1)

/-- `transformResumeToDocumentWithOrder`. -/
def transformResumeToDocumentWithOrder (resume : Resume)
    (sectionOrder : Option (List String)) : Document :=
  let order := validateSectionOrder sectionOrder
  { elements := emitSections resume order.length order 0 }

/-! ### JavaScript value model for the validator

The validator receives untrusted parsed JSON (`unknown`).  Values are
modelled by a mutual inductive so that every function below is structurally
recursive (and hence reduces in the kernel).  `undef` models the JS
`undefined` (a missing property).  Numbers are modelled by `Int`: the
repository only ever meets numbers as invalid field values, never computes
with them.  Object keys are assumed unique (as produced by `JSON.parse`). -/

mutual
inductive JsValue where
  | null
  | undef
  | bool (b : Bool)
  | num (n : Int)
  | str (s : String)
  | arr (elems : JsList)
  | obj (fields : JsFields)
deriving DecidableEq, Repr

inductive JsList where
  | nil
  | cons (hd : JsValue) (tl : JsList)
deriving DecidableEq, Repr

inductive JsFields where
  | nil
  | cons (key : String) (val : JsValue) (tl : JsFields)
deriving DecidableEq, Repr
end

/-- Build a `JsList` from a Lean list. -/
def jsListOfList : List JsValue → JsList
  | [] => JsList.nil
  | v :: rest => JsList.cons v (jsListOfList rest)

/-- Build `JsFields` from a Lean association list. -/
def jsFieldsOfList : List (String × JsValue) → JsFields
  | [] => JsFields.nil
  | (k, v) :: rest => JsFields.cons k v (jsFieldsOfList rest)

/-- `Array.prototype.length`. -/
def jsListLength : JsList → Nat
  | JsList.nil => 0
  | JsList.cons _ tl => jsListLength tl + 1

/-- Own-property lookup on an object's fields (`undefined` when absent). -/
def getField : JsFields → String → JsValue
  | JsFields.nil, _ => JsValue.undef
  | JsFields.cons k v tl, key => if k == key then v else getField tl key

/-- `value.key` property access as the validator performs it after its
`typeof` checks (for the identifier keys it uses, non-object values yield
`undefined`). -/
def jsGetProp (v : JsValue) (key : String) : JsValue :=
  match v with
  | JsValue.obj fields => getField fields key
  | _ => JsValue.undef

/-- `typeof`. -/
def jsTypeof : JsValue → String
  | JsValue.null => "object"
  | JsValue.undef => "undefined"
  | JsValue.bool _ => "boolean"
  | JsValue.num _ => "number"
  | JsValue.str _ => "string"
  | JsValue.arr _ => "object"
  | JsValue.obj _ => "object"

/-- `Array.isArray`. -/
def isArrayVal : JsValue → Bool
  | JsValue.arr _ => true
  | _ => false

/-- `isPlainObject` of `depth-check.ts` (every object of this model is a
plain object: its prototype is `Object.prototype`). -/
def isPlainObject : JsValue → Bool
  | JsValue.obj _ => true
  | _ => false

/-! ### `JSON.stringify` and `getJsonSize` (`resume-validator.ts`).
Escaping covers the characters this repository's strings can contain;
`undefined` is omitted from objects and becomes `null` inside arrays. -/

/-- JSON string escaping of one character. -/
def jsonEscapeChar (c : Char) : List Char :=
  if c == '"' then ['\\', '"']
  else if c == '\\' then ['\\', '\\']
  else if c == '\n' then ['\\', 'n']
  else if c == '\t' then ['\\', 't']
  else if c == '\r' then ['\\', 'r']
  else [c]

/-- A JSON string literal. -/
def jsonQuote (s : String) : String :=
  ⟨'"' :: ((s.data.map jsonEscapeChar).flatten ++ ['"'])⟩

mutual
/-- `JSON.stringify` (`none` models the JS `undefined` result). -/
def stringifyVal : JsValue → Option String
  | JsValue.null => some "null"
  | JsValue.undef => none
  | JsValue.bool b => some (if b then "true" else "false")
  | JsValue.num n => some (toString n)
  | JsValue.str s => some (jsonQuote s)
  | JsValue.arr elems => some ("[" ++ stringifyArr elems ++ "]")
  | JsValue.obj fields => some ("\x7b" ++ stringifyObj fields ++ "\x7d")

/-- Comma-joined array members (`undefined` members serialize as `null`). -/
def stringifyArr : JsList → String
  | JsList.nil => ""
  | JsList.cons v JsList.nil => (stringifyVal v).getD "null"
  | JsList.cons v (JsList.cons w tl) =>
    (stringifyVal v).getD "null" ++ "," ++ stringifyArr (JsList.cons w tl)

/-- Comma-joined object members, skipping `undefined`-valued properties. -/
def stringifyObj : JsFields → String
  | JsFields.nil => ""
  | JsFields.cons k v tl =>
    match stringifyVal v with
    | none => stringifyObj tl
    | some sv =>
      let entry := jsonQuote k ++ ":" ++ sv
      let rest := stringifyObj tl
      if rest == "" then entry else entry ++ "," ++ rest
end

/-- `getJsonSize`: UTF-8 byte length of the serialization (`0` when
`JSON.stringify` yields `undefined` and `Buffer.byteLength` throws). -/
def getJsonSize (data : JsValue) : Nat :=
  match stringifyVal data with
  | some s => s.utf8ByteSize
  | none => 0

/-! ### Depth / prototype-pollution checks (`depth-check.ts`) -/

mutual
/-- `getObjectDepth`: depth of the deepest nested object/array. -/
def getObjectDepth : JsValue → Nat → Nat
  | JsValue.arr elems, currentDepth => depthOfList elems currentDepth
  | JsValue.obj fields, currentDepth => depthOfFields fields currentDepth
  | _, currentDepth => currentDepth

/-- Maximum over an array's container-valued members of their depth at
`currentDepth + 1` (at least `currentDepth`). -/
def depthOfList : JsList → Nat → Nat
  | JsList.nil, currentDepth => currentDepth
  | JsList.cons v tl, currentDepth =>
    let rest := depthOfList tl currentDepth
    if isPlainObject v || isArrayVal v then
      max (getObjectDepth v (currentDepth + 1)) rest
    else rest

/-- Maximum over an object's container-valued members, as `depthOfList`. -/
def depthOfFields : JsFields → Nat → Nat
  | JsFields.nil, currentDepth => currentDepth
  | JsFields.cons _ v tl, currentDepth =>
    let rest := depthOfFields tl currentDepth
    if isPlainObject v || isArrayVal v then
      max (getObjectDepth v (currentDepth + 1)) rest
    else rest
end

/-- `isDepthSafe`. -/
def isDepthSafe (obj : JsValue) (maxDepth : Nat) : Bool :=
  decide (getObjectDepth obj 0 ≤ maxDepth)

/-- `DANGEROUS_KEYS`. -/
def DANGEROUS_KEYS : List String :=
  ["__proto__", "constructor", "prototype"]

mutual
/-- `hasNoDangerousKeys`: no reserved prototype-chain key anywhere in the
tree. -/
def hasNoDangerousKeys : JsValue → Bool
  | JsValue.obj fields => noDangerousFields fields
  | JsValue.arr elems => noDangerousList elems
  | _ => true

/-- Keys of this object and all nested values are safe. -/
def noDangerousFields : JsFields → Bool
  | JsFields.nil => true
  | JsFields.cons k v tl =>
    !(DANGEROUS_KEYS.contains k) && hasNoDangerousKeys v && noDangerousFields tl

/-- All array members are safe. -/
def noDangerousList : JsList → Bool
  | JsList.nil => true
  | JsList.cons v tl => hasNoDangerousKeys v && noDangerousList tl
end

/-- `isStructureSafe`. -/
def isStructureSafe (obj : JsValue) (maxDepth : Nat) : Bool :=
  isDepthSafe obj maxDepth && hasNoDangerousKeys obj

/-! ### Validation error model (`validation.types.ts`) -/

inductive ErrorType where
  | REQUIRED_FIELD_MISSING
  | INVALID_TYPE
  | STRING_TOO_LONG
  | ARRAY_TOO_LARGE
  | INVALID_FORMAT
  | UNSAFE_CONTENT
  | DEPTH_EXCEEDED
  | SIZE_EXCEEDED
deriving DecidableEq, Repr

/-- A validation error.  `value` is the offending value when the source
attaches one (`undef` models an absent `value` property). -/
structure ValidationError where
  type : ErrorType
  field : String
  message : String
  value : JsValue := JsValue.undef
deriving DecidableEq, Repr

structure ValidationResult where
  isValid : Bool
  errors : List ValidationError
deriving DecidableEq, Repr

structure ValidationLimits where
  maxStringLength : Nat
  maxSummaryLength : Nat
  maxArrayLength : Nat
  maxDescriptionPoints : Nat
  maxSkillsCount : Nat
  maxExperienceEntries : Nat
  maxEducationEntries : Nat
  maxProjectEntries : Nat
  maxObjectDepth : Nat
  maxJsonSize : Nat
deriving DecidableEq, Repr

def DEFAULT_VALIDATION_LIMITS : ValidationLimits :=
  { maxStringLength := 1000
    maxSummaryLength := 500
    maxArrayLength := 50
    maxDescriptionPoints := 10
    maxSkillsCount := 100
    maxExperienceEntries := 20
    maxEducationEntries := 10
    maxProjectEntries := 15
    maxObjectDepth := 5
    maxJsonSize := 1024 * 1024 }

/-! ### Content safety (`sanitization.ts`).  The source regex allows
Unicode letters/digits (`\p\x7bL\x7d`, `\p\x7bN\x7d`), whitespace, and a
fixed punctuation set, and rejects the NUL byte; letters/digits are
modelled on the ASCII range this repository exercises. -/

/-- The fixed punctuation set of the safety regex. -/
def safePunct : List Char :=
  ".,;:!?()-_@#$%&+=[]\x7b\x7d\x27\"/\\".data

/-- One character of the safety regex's character class. -/
def isSafeChar (c : Char) : Bool :=
  c.isAlpha || c.isDigit || jsWhitespaceChar c || safePunct.contains c

/-- `isSafeString`. -/
def isSafeString (s : String) : Bool :=
  s.data.all isSafeChar && !(s.data.contains (Char.ofNat 0))

/-! ### Field validators (`field-validators.ts`).  Each validator returns
the errors it pushes; `validateRequiredString` additionally returns its
boolean result (the source's type-guard return value). -/

/-- `validateRequiredString`: exactly one error (and `false`) on the first
failing check, else no errors (and `true`). -/
def validateRequiredString (value : JsValue) (fieldName : String)
    (maxLength : Nat) : List ValidationError × Bool :=
  match value with
  | JsValue.str s =>
    if jsTrim s == "" then
      ([{ type := ErrorType.REQUIRED_FIELD_MISSING, field := fieldName,
          message := fieldName ++ " is required and cannot be empty" }], false)
    else if s.length > maxLength then
      ([{ type := ErrorType.STRING_TOO_LONG, field := fieldName,
          message := fieldName ++ " exceeds maximum length of " ++
            toString maxLength ++ " characters",
          value := JsValue.num s.length }], false)
    else if !(isSafeString s) then
      ([{ type := ErrorType.UNSAFE_CONTENT, field := fieldName,
          message := fieldName ++ " contains unsafe characters" }], false)
    else ([], true)
  | v =>
    ([{ type := ErrorType.INVALID_TYPE, field := fieldName,
        message := fieldName ++ " must be a string", value := v }], false)

/-- `validateOptionalString`: absent / `null` / empty-string values are
valid, otherwise the required-string rules apply. -/
def validateOptionalString (value : JsValue) (fieldName : String)
    (maxLength : Nat) : List ValidationError × Bool :=
  match value with
  | JsValue.undef => ([], true)
  | JsValue.null => ([], true)
  | JsValue.str s =>
    if s == "" then ([], true)
    else validateRequiredString (JsValue.str s) fieldName maxLength
  | v => validateRequiredString v fieldName maxLength

/-- The element loop of `validateStringArray`: each element is validated as
a required string under the index-qualified field name, returning `false`
as soon as one element fails (leaving that element's error as the last). -/
def validateArrayItems (fieldName : String) (maxLength : Nat) :
    JsList → Nat → List ValidationError × Bool
  | JsList.nil, _ => ([], true)
  | JsList.cons item tl, i =>
    let r := validateRequiredString item
      (fieldName ++ "[" ++ toString i ++ "]") maxLength
    if r.2 then
      let rest := validateArrayItems fieldName maxLength tl (i + 1)
      (r.1 ++ rest.1, rest.2)
    else (r.1, false)

/-- `validateStringArray`. -/
def validateStringArray (value : JsValue) (fieldName : String)
    (maxItems maxLength : Nat) : List ValidationError × Bool :=
  match value with
  | JsValue.arr elems =>
    if jsListLength elems > maxItems then
      ([{ type := ErrorType.ARRAY_TOO_LARGE, field := fieldName,
          message := fieldName ++ " exceeds maximum of " ++ toString maxItems ++ " items",
          value := JsValue.num (jsListLength elems) }], false)
    else validateArrayItems fieldName maxLength elems 0
  | v =>
    ([{ type := ErrorType.INVALID_TYPE, field := fieldName,
        message := fieldName ++ " must be an array", value := v }], false)

/-- `validateContactInfo` (errors only; the source's `isValid` is the
emptiness of this list). -/
def validateContactInfo (data : JsValue) (limits : ValidationLimits) :
    List ValidationError :=
  if !(jsTypeof data == "object") || data == JsValue.null then
    [{ type := ErrorType.INVALID_TYPE, field := "contact",
       message := "Contact information must be an object", value := data }]
  else
    (validateRequiredString (jsGetProp data "fullName") "contact.fullName" limits.maxStringLength).1 ++
    (validateRequiredString (jsGetProp data "email") "contact.email" limits.maxStringLength).1 ++
    (validateRequiredString (jsGetProp data "phone") "contact.phone" limits.maxStringLength).1 ++
    (validateRequiredString (jsGetProp data "location") "contact.location" limits.maxStringLength).1 ++
    (validateOptionalString (jsGetProp data "linkedin") "contact.linkedin" limits.maxStringLength).1 ++
    (validateOptionalString (jsGetProp data "github") "contact.github" limits.maxStringLength).1 ++
    (validateOptionalString (jsGetProp data "portfolio") "contact.portfolio" limits.maxStringLength).1 ++
    (validateOptionalString (jsGetProp data "twitter") "contact.twitter" limits.maxStringLength).1

/-- `validateProfessionalSummary`. -/
def validateProfessionalSummary (data : JsValue) (limits : ValidationLimits) :
    List ValidationError :=
  if !(jsTypeof data == "object") || data == JsValue.null then
    [{ type := ErrorType.INVALID_TYPE, field := "summary",
       message := "Professional summary must be an object", value := data }]
  else
    (validateRequiredString (jsGetProp data "summary") "summary.summary" limits.maxSummaryLength).1

/-- `validateWorkExperience`. -/
def validateWorkExperience (data : JsValue) (index : Nat)
    (limits : ValidationLimits) : List ValidationError :=
  let entryPath := "experience[" ++ toString index ++ "]"
  if !(jsTypeof data == "object") || data == JsValue.null then
    [{ type := ErrorType.INVALID_TYPE, field := entryPath,
       message := "Work experience entry must be an object", value := data }]
  else
    (validateRequiredString (jsGetProp data "company") (entryPath ++ ".company") limits.maxStringLength).1 ++
    (validateRequiredString (jsGetProp data "role") (entryPath ++ ".role") limits.maxStringLength).1 ++
    (validateRequiredString (jsGetProp data "startDate") (entryPath ++ ".startDate") limits.maxStringLength).1 ++
    (validateOptionalString (jsGetProp data "location") (entryPath ++ ".location") limits.maxStringLength).1 ++
    (validateOptionalString (jsGetProp data "endDate") (entryPath ++ ".endDate") limits.maxStringLength).1 ++
    (validateStringArray (jsGetProp data "description") (entryPath ++ ".description")
      limits.maxDescriptionPoints limits.maxStringLength).1

/-- The coursework loop of `validateEducation` (accumulates over all
entries; no early return). -/
def courseWorkErrors (entryPath : String) (maxStringLength : Nat) :
    JsList → Nat → List ValidationError
  | JsList.nil, _ => []
  | JsList.cons course tl, i =>
    (match course with
     | JsValue.str s =>
       if s.length > maxStringLength then
         [{ type := ErrorType.STRING_TOO_LONG,
            field := entryPath ++ ".relevantCourseWorks[" ++ toString i ++ "]",
            message := "Coursework exceeds maximum length of " ++ toString maxStringLength,
            value := JsValue.str s }]
       else []
     | v =>
       [{ type := ErrorType.INVALID_TYPE,
          field := entryPath ++ ".relevantCourseWorks[" ++ toString i ++ "]",
          message := "Each coursework must be a string", value := v }]) ++
    courseWorkErrors entryPath maxStringLength tl (i + 1)

/-- `validateEducation`. -/
def validateEducation (data : JsValue) (index : Nat)
    (limits : ValidationLimits) : List ValidationError :=
  let entryPath := "education[" ++ toString index ++ "]"
  if !(jsTypeof data == "object") || data == JsValue.null then
    [{ type := ErrorType.INVALID_TYPE, field := entryPath,
       message := "Education entry must be an object", value := data }]
  else
    (validateRequiredString (jsGetProp data "institution") (entryPath ++ ".institution") limits.maxStringLength).1 ++
    (validateRequiredString (jsGetProp data "degree") (entryPath ++ ".degree") limits.maxStringLength).1 ++
    (validateRequiredString (jsGetProp data "startDate") (entryPath ++ ".startDate") limits.maxStringLength).1 ++
    (validateOptionalString (jsGetProp data "fieldOfStudy") (entryPath ++ ".fieldOfStudy") limits.maxStringLength).1 ++
    (validateOptionalString (jsGetProp data "endDate") (entryPath ++ ".endDate") limits.maxStringLength).1 ++
    (validateOptionalString (jsGetProp data "cgpa") (entryPath ++ ".cgpa") limits.maxStringLength).1 ++
    (match jsGetProp data "relevantCourseWorks" with
     | JsValue.undef => []
     | JsValue.arr courses => courseWorkErrors entryPath limits.maxStringLength courses 0
     | v =>
       [{ type := ErrorType.INVALID_TYPE, field := entryPath ++ ".relevantCourseWorks",
          message := "Relevant courseworks must be an array", value := v }])

/-- `validateSkills`. -/
def validateSkills (data : JsValue) (limits : ValidationLimits) :
    List ValidationError :=
  if !(jsTypeof data == "object") || data == JsValue.null then
    [{ type := ErrorType.INVALID_TYPE, field := "skills",
       message := "Skills must be an object", value := data }]
  else
    (validateStringArray (jsGetProp data "skills") "skills.skills"
      limits.maxSkillsCount limits.maxStringLength).1

/-- `validateProject`. -/
def validateProject (data : JsValue) (index : Nat)
    (limits : ValidationLimits) : List ValidationError :=
  let entryPath := "projects[" ++ toString index ++ "]"
  if !(jsTypeof data == "object") || data == JsValue.null then
    [{ type := ErrorType.INVALID_TYPE, field := entryPath,
       message := "Project entry must be an object", value := data }]
  else
    (validateRequiredString (jsGetProp data "name") (entryPath ++ ".name") limits.maxStringLength).1 ++
    (validateStringArray (jsGetProp data "description") (entryPath ++ ".description")
      limits.maxDescriptionPoints limits.maxStringLength).1 ++
    (match jsGetProp data "techStack" with
     | JsValue.undef => []
     | v => (validateStringArray v (entryPath ++ ".techStack")
         limits.maxArrayLength limits.maxStringLength).1) ++
    (validateOptionalString (jsGetProp data "link") (entryPath ++ ".link") limits.maxStringLength).1

/-! ### `validateResume` (`resume-validator.ts`) -/

/-- The `forEach` over experience entries. -/
def validateExperienceList (limits : ValidationLimits) :
    JsList → Nat → List ValidationError
  | JsList.nil, _ => []
  | JsList.cons exp tl, i =>
    validateWorkExperience exp i limits ++ validateExperienceList limits tl (i + 1)

/-- The `forEach` over education entries. -/
def validateEducationList (limits : ValidationLimits) :
    JsList → Nat → List ValidationError
  | JsList.nil, _ => []
  | JsList.cons edu tl, i =>
    validateEducation edu i limits ++ validateEducationList limits tl (i + 1)

/-- The `forEach` over project entries. -/
def validateProjectList (limits : ValidationLimits) :
    JsList → Nat → List ValidationError
  | JsList.nil, _ => []
  | JsList.cons pr tl, i =>
    validateProject pr i limits ++ validateProjectList limits tl (i + 1)

/-- The contact / summary / skills blocks of `validateResume` share this
shape: a missing section is one `REQUIRED_FIELD_MISSING`; otherwise the
section validator runs. -/
def sectionOrMissing (v : JsValue) (field message : String)
    (validate : JsValue → List ValidationError) : List ValidationError :=
  match v with
  | JsValue.undef =>
    [{ type := ErrorType.REQUIRED_FIELD_MISSING, field := field, message := message }]
  | v => validate v

/-- The experience / education / projects blocks of `validateResume`: must
be an array, within the entry cap (over-limit arrays are rejected wholesale
with no per-entry errors), else every entry is validated. -/
def arraySection (v : JsValue) (field message : String) (maxEntries : Nat)
    (entriesMessage : String) (validateAll : JsList → List ValidationError) :
    List ValidationError :=
  match v with
  | JsValue.arr elems =>
    if jsListLength elems > maxEntries then
      [{ type := ErrorType.ARRAY_TOO_LARGE, field := field,
         message := entriesMessage, value := JsValue.num (jsListLength elems) }]
    else validateAll elems
  | v =>
    [{ type := ErrorType.INVALID_TYPE, field := field, message := message, value := v }]

/-- `validateResume`: the structural gauntlet (presence, shape, size,
depth/prototype safety) aborts with a single error; afterwards all six
sections are validated and every error is accumulated. -/
def validateResume (data : JsValue)
    (limits : ValidationLimits := DEFAULT_VALIDATION_LIMITS) : ValidationResult :=
  match data with
  | JsValue.null =>
    { isValid := false,
      errors := [{ type := ErrorType.REQUIRED_FIELD_MISSING, field := "resume",
                   message := "Resume data is required" }] }
  | JsValue.undef =>
    { isValid := false,
      errors := [{ type := ErrorType.REQUIRED_FIELD_MISSING, field := "resume",
                   message := "Resume data is required" }] }
  | data =>
    if !(jsTypeof data == "object") || isArrayVal data then
      { isValid := false,
        errors := [{ type := ErrorType.INVALID_TYPE, field := "resume",
                     message := "Resume data must be an object", value := data }] }
    else if getJsonSize data > limits.maxJsonSize then
      { isValid := false,
        errors := [{ type := ErrorType.SIZE_EXCEEDED, field := "resume",
                     message := "Resume data exceeds maximum size of " ++
                       toString limits.maxJsonSize ++ " bytes",
                     value := JsValue.num (getJsonSize data) }] }
    else if !(isStructureSafe data limits.maxObjectDepth) then
      { isValid := false,
        errors := [{ type := ErrorType.DEPTH_EXCEEDED, field := "resume",
                     message := "Resume data structure is unsafe or exceeds maximum depth of " ++
                       toString limits.maxObjectDepth }] }
    else
      let errors :=
        sectionOrMissing (jsGetProp data "contact") "contact"
          "Contact information is required" (fun v => validateContactInfo v limits) ++
        sectionOrMissing (jsGetProp data "summary") "summary"
          "Professional summary is required" (fun v => validateProfessionalSummary v limits) ++
        arraySection (jsGetProp data "experience") "experience"
          "Work experience must be an array" limits.maxExperienceEntries
          ("Work experience exceeds maximum of " ++ toString limits.maxExperienceEntries ++ " entries")
          (fun elems => validateExperienceList limits elems 0) ++
        arraySection (jsGetProp data "education") "education"
          "Education must be an array" limits.maxEducationEntries
          ("Education exceeds maximum of " ++ toString limits.maxEducationEntries ++ " entries")
          (fun elems => validateEducationList limits elems 0) ++
        sectionOrMissing (jsGetProp data "skills") "skills"
          "Skills section is required" (fun v => validateSkills v limits) ++
        arraySection (jsGetProp data "projects") "projects"
          "Projects must be an array" limits.maxProjectEntries
          ("Projects exceeds maximum of " ++ toString limits.maxProjectEntries ++ " entries")
          (fun elems => validateProjectList limits elems 0)
      { isValid := errors.isEmpty, errors := errors }

/-! ### Renderer configuration (`renderer-config.ts`).  Point values are
rationals: the source's constants (including the `1.15` line-height factor
and fractional font sizes) are exact decimal fractions. -/

structure PageConfig where
  width : ℚ
  height : ℚ
  marginTop : ℚ
  marginBottom : ℚ
  marginLeft : ℚ
  marginRight : ℚ
deriving DecidableEq, Repr

def PAGE_CONFIG : PageConfig :=
  { width := 612, height := 792,
    marginTop := 54, marginBottom := 54, marginLeft := 54, marginRight := 54 }

def CONTENT_WIDTH : ℚ :=
  PAGE_CONFIG.width - PAGE_CONFIG.marginLeft - PAGE_CONFIG.marginRight

def LINE_HEIGHT : ℚ := 23 / 20

/-- `calculateLineHeight`. -/
def calculateLineHeight (fontSize : ℚ) : ℚ :=
  fontSize * LINE_HEIGHT

structure FontSizesConfig where
  h1 : ℚ
  h2 : ℚ
  h3 : ℚ
  body : ℚ
  contactInfo : ℚ
deriving DecidableEq, Repr

structure SpacingConfig where
  sectionBreak : ℚ
  afterHeading : ℚ
  afterNameHeading : ℚ
  afterParagraph : ℚ
  afterTextLine : ℚ
  afterContactLine : ℚ
  afterList : ℚ
  listItemIndent : ℚ
  betweenListItems : ℚ
  minSpaceForParagraph : ℚ
  minSpaceForListItem : ℚ
deriving DecidableEq, Repr

structure DensityConfig where
  fontSizes : FontSizesConfig
  spacing : SpacingConfig
deriving DecidableEq, Repr

/-- The `normal` density preset. -/
def normalPreset : DensityConfig :=
  { fontSizes := { h1 := 16, h2 := 14, h3 := 12, body := 11, contactInfo := 19/2 },
    spacing := { sectionBreak := 12, afterHeading := 4, afterNameHeading := 2,
                 afterParagraph := 6, afterTextLine := 2, afterContactLine := 8,
                 afterList := 6, listItemIndent := 15, betweenListItems := 2,
                 minSpaceForParagraph := 40, minSpaceForListItem := 30 } }

/-- The `compact` density preset. -/
def compactPreset : DensityConfig :=
  { fontSizes := { h1 := 15, h2 := 13, h3 := 11, body := 10, contactInfo := 9 },
    spacing := { sectionBreak := 10, afterHeading := 3, afterNameHeading := 3/2,
                 afterParagraph := 5, afterTextLine := 2, afterContactLine := 7,
                 afterList := 5, listItemIndent := 15, betweenListItems := 3/2,
                 minSpaceForParagraph := 40, minSpaceForListItem := 30 } }

/-- The `ultra-compact` density preset. -/
def ultraCompactPreset : DensityConfig :=
  { fontSizes := { h1 := 14, h2 := 12, h3 := 10, body := 9, contactInfo := 17/2 },
    spacing := { sectionBreak := 8, afterHeading := 2, afterNameHeading := 1,
                 afterParagraph := 4, afterTextLine := 2, afterContactLine := 6,
                 afterList := 4, listItemIndent := 15, betweenListItems := 1,
                 minSpaceForParagraph := 40, minSpaceForListItem := 30 } }

/-! ### Paginating renderer cursor model (`pdf-renderer.ts`).

The renderer threads a mutable state (current vertical cursor, one-shot
contact-line flag) through per-element drawing functions; `pages` counts
`doc.addPage()` calls.  The drawing calls themselves go to the external
page writer; the cursor arithmetic for headings, text lines and section
breaks is closed-form and modelled here (`PARAGRAPH`/`LIST` advance by the
external wrap engine's reported position and are outside the model). -/

structure RendererState where
  currentY : ℚ
  pages : ℕ
  isFirstTextLine : Bool
deriving DecidableEq, Repr

/-- The initial state of `renderDocumentToPDFWithMetadata`: cursor at the
top margin, no page breaks yet, contact-line flag set. -/
def initialRendererState : RendererState :=
  { currentY := PAGE_CONFIG.marginTop, pages := 0, isFirstTextLine := true }

/-- `checkPageBreak`: when the space between the cursor and the bottom
margin is less than `requiredSpace`, add a page and reset the cursor to the
top margin. -/
def checkPageBreak (state : RendererState) (requiredSpace : ℚ) : RendererState :=
  if PAGE_CONFIG.height - PAGE_CONFIG.marginBottom - state.currentY < requiredSpace then
    { state with currentY := PAGE_CONFIG.marginTop, pages := state.pages + 1 }
  else state

/-- The cursor arithmetic of `renderHeading`. -/
def renderHeadingY (config : DensityConfig) (level : Nat)
    (state : RendererState) : RendererState :=
  let fontSize :=
    if level == 1 then config.fontSizes.h1
    else if level == 2 then config.fontSizes.h2
    else config.fontSizes.h3
  let lineHeight := calculateLineHeight fontSize
  let s := checkPageBreak state lineHeight
  let spacingAfter :=
    if level == 1 then config.spacing.afterNameHeading else config.spacing.afterHeading
  { s with currentY := s.currentY + lineHeight + spacingAfter }

/-- The cursor arithmetic of `renderTextLine` (the first text line of the
document is the contact-info line, with its own font size and trailing
space). -/
def renderTextLineY (config : DensityConfig) (state : RendererState) : RendererState :=
  let isContactLine := state.isFirstTextLine
  let fontSize :=
    if isContactLine then config.fontSizes.contactInfo else config.fontSizes.body
  let lineHeight := calculateLineHeight fontSize
  let s := checkPageBreak state lineHeight
  let spacingAfter :=
    if isContactLine then config.spacing.afterContactLine else config.spacing.afterTextLine
  { currentY := s.currentY + lineHeight + spacingAfter,
    pages := s.pages, isFirstTextLine := false }

/-- The cursor arithmetic of `renderSectionBreak` (advances only). -/
def renderSectionBreakY (config : DensityConfig) (state : RendererState) : RendererState :=
  { state with currentY := state.currentY + config.spacing.sectionBreak }

/-- The closed-form element kinds of the cursor model. -/
inductive PureElement where
  | headingE (level : Nat)
  | textLineE
  | sectionBreakE
deriving DecidableEq, Repr

/-- Dispatch of `renderElement` over the closed-form kinds. -/
def renderPureElement (config : DensityConfig) (state : RendererState) :
    PureElement → RendererState
  | PureElement.headingE level => renderHeadingY config level state
  | PureElement.textLineE => renderTextLineY config state
  | PureElement.sectionBreakE => renderSectionBreakY config state

/-- The render loop over a sequence of closed-form elements. -/
def renderPureElements (config : DensityConfig) (elems : List PureElement)
    (state : RendererState) : RendererState :=
  elems.foldl (renderPureElement config) state

/-! ### ATS order-preservation check (`verifyElementOrderPreservation`) and
dispatch order of `renderDocumentToPDFWithMetadata`. -/

/-- The `type` discriminator string of an element. -/
def elementTypeTag : DocumentElement → String
  | HEADING _ _ => "HEADING"
  | PARAGRAPH _ => "PARAGRAPH"
  | TEXT_LINE _ => "TEXT_LINE"
  | LIST _ => "LIST"
  | SECTION_BREAK => "SECTION_BREAK"

/-- The loop of `verifyElementOrderPreservation`, starting at position `i`:
throws at the first adjacent pair whose indices fail to increase. -/
def checkMonotoneFrom (i : Nat) :
    List (Nat × String) → Except String Unit
  | a :: b :: rest =>
    if b.1 ≤ a.1 then
      Except.error ("ATS invariant violated: Element order not preserved at index " ++
        toString i)
    else checkMonotoneFrom (i + 1) (b :: rest)
  | _ => Except.ok ()

/-- `verifyElementOrderPreservation`: map each element to its array index
and type, then demand strictly increasing indices. -/
def verifyElementOrderPreservation (document : Document) : Except String Unit :=
  let elementSequence := document.elements.enum.map (fun p => (p.1, elementTypeTag p.2))
  checkMonotoneFrom 1 elementSequence

/-- The dispatch trace of `renderDocumentToPDFWithMetadata`: the
`document.elements.forEach(renderElement)` loop visits elements in this
order. -/
def renderDispatchTrace (document : Document) : List DocumentElement :=
  document.elements.foldl (fun acc element => acc ++ [element]) []

/-! ### Specification-side auxiliary definitions used by the theorems -/

/-- The skills of `skills` whose parsed category is `c`, in input order:
what the bucket of category `c` holds after grouping. -/
def parsedSkillsOf (c : SkillCategory) (skills : List String) : List String :=
  ((skills.map parseSkillWithCategory).filter (fun p => p.category == c)).map
    ParsedSkill.skill

/-- Extending an optional bucket by a batch of skills (absent stays absent
when the batch is empty). -/
def optBucket (o : Option (List String)) (xs : List String) : Option (List String) :=
  match o with
  | some vs => some (vs ++ xs)
  | none => if xs.isEmpty then none else some xs

/-- A minimal valid resume carrying a given skills list. -/
def resumeWithSkills (skills : List String) : Resume :=
  { contact := { fullName := "Jane Doe", email := "jane@example.com",
                 phone := "555-0100", location := "NYC" },
    summary := { summary := "Engineer." },
    experience := [], education := [],
    skills := { skills := skills }, projects := [] }

/-- A resume whose resolved default order ends in empty sections after a
non-empty skills section (projects is empty and sits last). -/
def trailingEmptyResume : Resume :=
  { contact := { fullName := "Jane Doe", email := "jane@example.com",
                 phone := "555-0100", location := "NYC" },
    summary := { summary := "Engineer." },
    experience := [], education := [],
    skills := { skills := ["TypeScript"] }, projects := [] }

/-- A resume with one experience entry that has no end date (and no
location), used against the combined Experience & Projects rendering. -/
def openEndedExpResume : Resume :=
  { contact := { fullName := "Jane Doe", email := "jane@example.com",
                 phone := "555-0100", location := "NYC" },
    summary := { summary := "Engineer." },
    experience := [{ company := "Acme", role := "Dev", startDate := "2020",
                     description := ["Built it"] }],
    education := [],
    skills := { skills := [] }, projects := [] }

/-- A resume in which every section of the default order is non-empty. -/
def fullResume : Resume :=
  { contact := { fullName := "Jane Doe", email := "jane@example.com",
                 phone := "555-0100", location := "NYC" },
    summary := { summary := "Engineer." },
    experience := [{ company := "Acme", role := "Dev", startDate := "2020",
                     endDate := some "2024", description := ["Built it"] }],
    education := [{ institution := "MIT", degree := "BSc", startDate := "2016",
                    endDate := some "2020" }],
    skills := { skills := ["Go"] },
    projects := [{ name := "QuickCV", description := ["A resume builder"] }] }

/-- An input value whose `contact` object lacks the `email` property while
every structural check passes and every other field is valid. -/
def missingEmailInput : JsValue :=
  JsValue.obj (jsFieldsOfList
    [("contact", JsValue.obj (jsFieldsOfList
       [("fullName", JsValue.str "Jane Doe"),
        ("phone", JsValue.str "555-0100"),
        ("location", JsValue.str "NYC")])),
     ("summary", JsValue.obj (jsFieldsOfList [("summary", JsValue.str "Hi there")])),
     ("experience", JsValue.arr JsList.nil),
     ("education", JsValue.arr JsList.nil),
     ("skills", JsValue.obj (jsFieldsOfList
       [("skills", JsValue.arr (jsListOfList [JsValue.str "Go"]))])),
     ("projects", JsValue.arr JsList.nil)])

/-- An input value whose skills array holds two non-string elements (and is
otherwise valid). -/
def twoBadSkillsInput : JsValue :=
  JsValue.obj (jsFieldsOfList
    [("contact", JsValue.obj (jsFieldsOfList
       [("fullName", JsValue.str "Jane Doe"),
        ("email", JsValue.str "jane@example.com"),
        ("phone", JsValue.str "555-0100"),
        ("location", JsValue.str "NYC")])),
     ("summary", JsValue.obj (jsFieldsOfList [("summary", JsValue.str "Hi there")])),
     ("experience", JsValue.arr JsList.nil),
     ("education", JsValue.arr JsList.nil),
     ("skills", JsValue.obj (jsFieldsOfList
       [("skills", JsValue.arr (jsListOfList [JsValue.num 1, JsValue.num 2]))])),
     ("projects", JsValue.arr JsList.nil)])

/-- An input with two independent faults in different sections: the contact
object lacks `email` and `summary` is not an object. -/
def twoFaultsInput : JsValue :=
  JsValue.obj (jsFieldsOfList
    [("contact", JsValue.obj (jsFieldsOfList
       [("fullName", JsValue.str "Jane Doe"),
        ("phone", JsValue.str "555-0100"),
        ("location", JsValue.str "NYC")])),
     ("summary", JsValue.num 5),
     ("experience", JsValue.arr JsList.nil),
     ("education", JsValue.arr JsList.nil),
     ("skills", JsValue.obj (jsFieldsOfList
       [("skills", JsValue.arr (jsListOfList [JsValue.str "Go"]))])),
     ("projects", JsValue.arr JsList.nil)])

/-! ## Theorems -/

set_option allowUnsafeReducibility true in
attribute [semireducible] Rat.add Rat.mul Rat.sub Rat.inv

/-! ### Skill grouping: bucket lookup is determined by the parsed skills of
each category, independently of interleaving (towards C4). -/

theorem lookup_mapAppend (m : List (SkillCategory × List String))
    (cat : SkillCategory) (skill : String) (c : SkillCategory) :
    (mapAppend m cat skill).lookup c =
      if c = cat then some (((m.lookup c).getD []) ++ [skill]) else m.lookup c := by
  induction m with
  | nil =>
    cases hc : (c == cat) with
    | true =>
      have h := eq_of_beq hc
      simp [mapAppend, List.lookup, hc, h]
    | false =>
      have h : ¬ c = cat := by simpa using hc
      simp [mapAppend, List.lookup, hc, h]
  | cons hd tl ih =>
    obtain ⟨k, vs⟩ := hd
    cases hkc : (k == cat) with
    | true =>
      have hk := eq_of_beq hkc
      subst hk
      cases hck : (c == k) with
      | true =>
        have h := eq_of_beq hck
        simp [mapAppend, List.lookup, hck, h]
      | false =>
        have h : ¬ c = k := by simpa using hck
        simp [mapAppend, List.lookup, hck, h]
    | false =>
      have hk : ¬ k = cat := by simpa using hkc
      cases hck : (c == k) with
      | true =>
        have h := eq_of_beq hck
        have hcc : ¬ c = cat := h ▸ hk
        simp [mapAppend, List.lookup, hkc, hck, hcc]
      | false =>
        simp [mapAppend, List.lookup, hkc, hck, ih]

theorem categorizeFold_lookup (skills : List String)
    (m : List (SkillCategory × List String)) (c : SkillCategory) :
    (skills.foldl (fun m skillInput =>
       let p := parseSkillWithCategory skillInput
       mapAppend m p.category p.skill) m).lookup c
      = optBucket (m.lookup c) (parsedSkillsOf c skills) := by
  induction skills generalizing m with
  | nil =>
    cases h : m.lookup c <;> simp [parsedSkillsOf, optBucket, h]
  | cons s rest ih =>
    simp only [List.foldl_cons]
    rw [ih, lookup_mapAppend]
    cases hc : ((parseSkillWithCategory s).category == c) with
    | true =>
      have h := eq_of_beq hc
      have hfilter : parsedSkillsOf c (s :: rest) =
          (parseSkillWithCategory s).skill :: parsedSkillsOf c rest := by
        simp [parsedSkillsOf, List.filter, hc]
      rw [hfilter, if_pos h.symm]
      cases hm : m.lookup c <;> simp [optBucket, hm]
    | false =>
      have h : ¬ c = (parseSkillWithCategory s).category := by
        intro he; rw [he] at hc; simp at hc
      have hfilter : parsedSkillsOf c (s :: rest) = parsedSkillsOf c rest := by
        simp [parsedSkillsOf, List.filter, hc]
      rw [hfilter, if_neg h]

theorem categorizeAll_lookup (skills : List String) (c : SkillCategory) :
    (categorizeAll skills).lookup c = optBucket none (parsedSkillsOf c skills) := by
  simpa using categorizeFold_lookup skills [] c

theorem perm_eq_of_length_le_one {α : Type} {xs ys : List α}
    (h : xs.Perm ys) (hl : ys.length ≤ 1) : xs = ys := by
  match ys, hl with
  | [], _ => exact h.eq_nil
  | [a], _ => exact List.perm_singleton.mp h

theorem parsedSkillsOf_perm {l₁ l₂ : List String} (h : l₁.Perm l₂)
    (c : SkillCategory) :
    (parsedSkillsOf c l₁).Perm (parsedSkillsOf c l₂) :=
  ((h.map parseSkillWithCategory).filter _).map _

set_option maxRecDepth 40000 in
/-- C4: for the skills array `["React", "PostgreSQL", "Cloud: OpenTelemetry",
"Bagels"]` in any input order, the skills section emits exactly the lines
`Frontend: React`, `Database: PostgreSQL`, `Cloud: OpenTelemetry` (the
recognized `Cloud:` prefix normalized to the canonical cloud category) and
`Other: Bagels`, in the fixed canonical category order: the unprefixed
skills are placed by case-insensitive keyword substring matching (`React` →
Frontend, `PostgreSQL` → Database, `Bagels` → Other). -/
theorem claim_C4_skill_categorization : ∀ (l : List String),
    l.Perm ["React", "PostgreSQL", "Cloud: OpenTelemetry", "Bagels"] →
    transformSkillsSection (resumeWithSkills l) =
      [HEADING 2 "Skills",
       TEXT_LINE "Frontend: React",
       TEXT_LINE "Database: PostgreSQL",
       TEXT_LINE "Cloud: OpenTelemetry",
       TEXT_LINE "Other: Bagels"] := by
  intro l h
  have hlen : l.length = 4 := by simpa using h.length_eq
  have hstep : transformSkillsSection (resumeWithSkills l) =
      HEADING 2 "Skills" :: categoryOrder.filterMap (fun category =>
        ((categorizeAll l).lookup (SkillCategory.name category)).map (fun skills =>
          TEXT_LINE (category ++ ": " ++ String.intercalate ", " skills))) := by
    simp [transformSkillsSection, resumeWithSkills, hlen]
  rw [hstep]
  have hcong : ∀ c ∈ categoryOrder,
      (categorizeAll l).lookup (SkillCategory.name c) =
      (categorizeAll ["React", "PostgreSQL", "Cloud: OpenTelemetry", "Bagels"]).lookup
        (SkillCategory.name c) := by
    intro c hc
    rw [categorizeAll_lookup, categorizeAll_lookup]
    have hp := parsedSkillsOf_perm h (SkillCategory.name c)
    have heq : parsedSkillsOf (SkillCategory.name c) l =
        parsedSkillsOf (SkillCategory.name c)
          ["React", "PostgreSQL", "Cloud: OpenTelemetry", "Bagels"] := by
      fin_cases hc <;> exact perm_eq_of_length_le_one hp (by decide)
    rw [heq]
  have hfm := List.filterMap_congr (l := categoryOrder)
    (f := fun category =>
      ((categorizeAll l).lookup (SkillCategory.name category)).map (fun skills =>
          TEXT_LINE (category ++ ": " ++ String.intercalate ", " skills)))
    (g := fun category =>
      ((categorizeAll ["React", "PostgreSQL", "Cloud: OpenTelemetry", "Bagels"]).lookup
        (SkillCategory.name category)).map (fun skills =>
          TEXT_LINE (category ++ ": " ++ String.intercalate ", " skills)))
    (fun c hc => by simp only [hcong c hc])
  rw [hfm]
  decide

set_option maxRecDepth 40000 in
/-- Witness for C4 at a concrete reordering of the skills array. -/
theorem claim_C4_witness :
    transformSkillsSection
      (resumeWithSkills ["Bagels", "Cloud: OpenTelemetry", "PostgreSQL", "React"]) =
      [HEADING 2 "Skills",
       TEXT_LINE "Frontend: React",
       TEXT_LINE "Database: PostgreSQL",
       TEXT_LINE "Cloud: OpenTelemetry",
       TEXT_LINE "Other: Bagels"] :=
  claim_C4_skill_categorization _ (by decide)

/-! ### Section-order normalization lemmas (towards C5). -/

theorem filterValidUnique_mem (keys : List String) :
    ∀ (acc : List String), ∀ x ∈ filterValidUnique acc keys,
      x ∈ acc ∨ x ∈ VALID_SECTION_KEYS := by
  induction keys with
  | nil => intro acc x hx; exact Or.inl hx
  | cons k rest ih =>
    intro acc x hx
    simp only [filterValidUnique] at hx
    cases hcond : (VALID_SECTION_KEYS.contains k && !(acc.contains k)) with
    | true =>
      rw [hcond, if_pos rfl] at hx
      rcases ih (acc ++ [k]) x hx with h | h
      · rcases List.mem_append.mp h with h | h
        · exact Or.inl h
        · right
          have hv : VALID_SECTION_KEYS.contains k = true := by
            have := hcond
            simp only [Bool.and_eq_true] at this
            exact this.1
          have : x = k := by simpa using h
          subst this
          simpa using hv
      · exact Or.inr h
    | false =>
      rw [hcond, if_neg (by simp)] at hx
      exact ih acc x hx

theorem filterValidUnique_nodup (keys : List String) :
    ∀ (acc : List String), acc.Nodup → (filterValidUnique acc keys).Nodup := by
  induction keys with
  | nil => intro acc h; exact h
  | cons k rest ih =>
    intro acc h
    simp only [filterValidUnique]
    cases hcond : (VALID_SECTION_KEYS.contains k && !(acc.contains k)) with
    | true =>
      rw [if_pos rfl]
      apply ih
      have hnk : k ∉ acc := by
        have := hcond
        simp only [Bool.and_eq_true, Bool.not_eq_true'] at this
        simpa using this.2
      simp [List.nodup_append, h, List.disjoint_singleton, hnk]
    | false =>
      rw [if_neg (by simp)]
      exact ih acc h

theorem addMissingSections_append (h : Bool) (ks : List String) :
    ∀ acc, ∃ t, addMissingSections h acc ks = acc ++ t := by
  induction ks with
  | nil => intro acc; exact ⟨[], by simp [addMissingSections]⟩
  | cons k rest ih =>
    intro acc
    simp only [addMissingSections]
    split
    · exact ih acc
    · split
      · exact ih acc
      · obtain ⟨t, ht⟩ := ih (acc ++ [k])
        exact ⟨[k] ++ t, by rw [ht, List.append_assoc]⟩

theorem addMissingSections_mono (h : Bool) (ks : List String) (acc : List String)
    (x : String) (hx : x ∈ acc) : x ∈ addMissingSections h acc ks := by
  obtain ⟨t, ht⟩ := addMissingSections_append h ks acc
  rw [ht]
  exact List.mem_append_left t hx

theorem addMissingSections_nodup (h : Bool) (ks : List String) :
    ∀ acc, acc.Nodup → (addMissingSections h acc ks).Nodup := by
  induction ks with
  | nil => intro acc hnd; exact hnd
  | cons k rest ih =>
    intro acc hnd
    simp only [addMissingSections]
    split
    · exact ih acc hnd
    · split
      · exact ih acc hnd
      · apply ih
        rename_i hc
        have hnk : k ∉ acc := by simpa using hc
        simp [List.nodup_append, hnd, List.disjoint_singleton, hnk]

theorem addMissingSections_mem (h : Bool) (ks : List String) :
    ∀ acc, ∀ x ∈ addMissingSections h acc ks, x ∈ acc ∨ x ∈ ks := by
  induction ks with
  | nil => intro acc x hx; exact Or.inl hx
  | cons k rest ih =>
    intro acc x hx
    simp only [addMissingSections] at hx
    split at hx
    · rcases ih acc x hx with h1 | h1
      · exact Or.inl h1
      · exact Or.inr (List.mem_cons_of_mem _ h1)
    · split at hx
      · rcases ih acc x hx with h1 | h1
        · exact Or.inl h1
        · exact Or.inr (List.mem_cons_of_mem _ h1)
      · rcases ih (acc ++ [k]) x hx with h1 | h1
        · rcases List.mem_append.mp h1 with h2 | h2
          · exact Or.inl h2
          · exact Or.inr (by simp at h2; simp [h2])
        · exact Or.inr (List.mem_cons_of_mem _ h1)

theorem addMissingSections_adds (h : Bool) (ks : List String) (k : String) :
    ∀ acc, k ∈ ks → ¬(h = true ∧ (k = "experience" ∨ k = "projects")) →
      k ∈ addMissingSections h acc ks := by
  induction ks with
  | nil => intro acc hk; simp at hk
  | cons k' rest ih =>
    intro acc hk hskip
    rcases List.mem_cons.mp hk with hkk | hkk
    · subst hkk
      simp only [addMissingSections]
      split
      · rename_i hc
        exfalso
        apply hskip
        simp only [Bool.and_eq_true, Bool.or_eq_true, beq_iff_eq] at hc
        exact ⟨hc.1, hc.2⟩
      · split
        · rename_i hc
          apply addMissingSections_mono
          simpa using hc
        · apply addMissingSections_mono
          simp
    · simp only [addMissingSections]
      split
      · exact ih acc hkk hskip
      · split
        · exact ih acc hkk hskip
        · exact ih (acc ++ [k']) hkk hskip

set_option maxRecDepth 10000 in
/-- C5: every normalized section order has `contact` at position 0, contains
each retained key exactly once (no duplicates), contains only valid keys
(unknown keys are dropped), and contains every canonical section unless it
is `experience`/`projects` subsumed by a retained `experienceProjects`; on
`["skills", "contact", "skills", "bogus"]` the result is exactly
`["contact", "skills", "summary", "experience", "education", "projects"]`
(contact first, duplicate and unknown keys dropped, missing canonical
sections appended in default order). -/
theorem claim_C5_section_order :
    (∀ so, (validateSectionOrder so).head? = some "contact") ∧
    (∀ so, (validateSectionOrder so).Nodup) ∧
    (∀ so, ∀ x ∈ validateSectionOrder so, x ∈ VALID_SECTION_KEYS) ∧
    (∀ so, ∀ k ∈ DEFAULT_SECTION_ORDER,
       k ∈ validateSectionOrder so ∨
       ("experienceProjects" ∈ validateSectionOrder so ∧
        (k = "experience" ∨ k = "projects"))) ∧
    validateSectionOrder (some ["skills", "contact", "skills", "bogus"]) =
      ["contact", "skills", "summary", "experience", "education", "projects"] := by
  refine ⟨?_, ?_, ?_, ?_, by decide⟩
  · intro so
    cases so with
    | none => decide
    | some keys =>
      simp only [validateSectionOrder]
      obtain ⟨t, ht⟩ := addMissingSections_append
        (("contact" :: (filterValidUnique [] keys).erase "contact").contains "experienceProjects")
        DEFAULT_SECTION_ORDER
        ("contact" :: (filterValidUnique [] keys).erase "contact")
      rw [ht]
      rfl
  · intro so
    cases so with
    | none => decide
    | some keys =>
      simp only [validateSectionOrder]
      apply addMissingSections_nodup
      have hnd : (filterValidUnique [] keys).Nodup :=
        filterValidUnique_nodup keys [] List.nodup_nil
      have hnc : "contact" ∉ (filterValidUnique [] keys).erase "contact" := by
        intro hmem
        have := (List.Nodup.mem_erase_iff hnd).mp hmem
        exact this.1 rfl
      exact List.nodup_cons.mpr ⟨hnc, hnd.erase _⟩
  · intro so x hx
    cases so with
    | none => revert hx; revert x; decide
    | some keys =>
      simp only [validateSectionOrder] at hx
      rcases addMissingSections_mem _ _ _ x hx with h1 | h1
      · rcases List.mem_cons.mp h1 with h2 | h2
        · subst h2; decide
        · have h3 : x ∈ filterValidUnique [] keys := List.erase_subset _ _ h2
          rcases filterValidUnique_mem keys [] x h3 with h4 | h4
          · simp at h4
          · exact h4
      · have hall : ∀ y ∈ DEFAULT_SECTION_ORDER, y ∈ VALID_SECTION_KEYS := by decide
        exact hall x h1
  · intro so k hk
    cases so with
    | none =>
      left
      simpa [validateSectionOrder] using hk
    | some keys =>
      simp only [validateSectionOrder]
      set acc := "contact" :: (filterValidUnique [] keys).erase "contact" with hacc
      cases hEP : acc.contains "experienceProjects" with
      | false =>
        left
        exact addMissingSections_adds _ _ _ _ hk (by simp)
      | true =>
        by_cases hkexp : k = "experience" ∨ k = "projects"
        · right
          constructor
          · apply addMissingSections_mono
            simpa using hEP
          · exact hkexp
        · left
          exact addMissingSections_adds _ _ _ _ hk (by simpa using hkexp)

/-! ### Section breaks and date-range rendering (C2, C6) -/

theorem mem_ite_nil_iff {α : Type} {c : Prop} [Decidable c] {x : α} {l : List α} :
    (x ∈ if c then l else []) ↔ c ∧ x ∈ l := by
  split <;> simp_all

theorem sb_not_mem_emitEntries {α : Type} {f : α → List DocumentElement}
    (hf : ∀ x, SECTION_BREAK ∉ f x) :
    ∀ l : List α, SECTION_BREAK ∉ emitEntries f l := by
  intro l
  induction l with
  | nil => simp [emitEntries]
  | cons x rest ih =>
    cases rest with
    | nil => simpa [emitEntries] using hf x
    | cons y t =>
      simp only [emitEntries, List.mem_append, List.mem_cons]
      push_neg
      refine ⟨hf x, ?_, ?_⟩
      · simp
      · exact ih

theorem sb_not_mem_contact (r : Resume) :
    SECTION_BREAK ∉ transformContactSection r := by
  simp only [transformContactSection, List.mem_append, List.mem_cons,
    mem_ite_nil_iff]
  push_neg
  rcases r.contact.jobTitle with _ | t <;> simp [mem_ite_nil_iff]

theorem sb_not_mem_summary (r : Resume) :
    SECTION_BREAK ∉ transformSummarySection r := by
  simp [transformSummarySection]

theorem sb_not_mem_experienceEntry (e : WorkExperience) :
    SECTION_BREAK ∉ experienceEntryElems e := by
  simp [experienceEntryElems, mem_ite_nil_iff]

theorem sb_not_mem_experience (r : Resume) :
    SECTION_BREAK ∉ transformExperienceSection r := by
  simp only [transformExperienceSection]
  split
  · simp
  · simp only [List.mem_cons]
    push_neg
    exact ⟨by simp, sb_not_mem_emitEntries sb_not_mem_experienceEntry _⟩

theorem sb_not_mem_educationEntry (e : Education) :
    SECTION_BREAK ∉ educationEntryElems e := by
  cases e with
  | mk inst deg fos sd ed cg rcw =>
    cases rcw <;> simp [educationEntryElems, mem_ite_nil_iff]

theorem sb_not_mem_education (r : Resume) :
    SECTION_BREAK ∉ transformEducationSection r := by
  simp only [transformEducationSection]
  split
  · simp
  · simp only [List.mem_cons]
    push_neg
    exact ⟨by simp, sb_not_mem_emitEntries sb_not_mem_educationEntry _⟩

theorem sb_not_mem_skills (r : Resume) :
    SECTION_BREAK ∉ transformSkillsSection r := by
  simp only [transformSkillsSection]
  split
  · simp
  · simp only [List.mem_cons]
    push_neg
    refine ⟨by simp, ?_⟩
    intro hmem
    rcases List.mem_filterMap.mp hmem with ⟨c, _, hc⟩
    rcases Option.map_eq_some'.mp hc with ⟨sk, _, habs⟩
    exact DocumentElement.noConfusion habs.symm

theorem sb_not_mem_projectEntry (p : Project) :
    SECTION_BREAK ∉ projectEntryElems p := by
  cases p with
  | mk nm de ts li =>
    cases ts <;> cases li <;> simp [projectEntryElems, mem_ite_nil_iff]

theorem sb_not_mem_projects (r : Resume) :
    SECTION_BREAK ∉ transformProjectsSection r := by
  simp only [transformProjectsSection]
  split
  · simp
  · simp only [List.mem_cons]
    push_neg
    exact ⟨by simp, sb_not_mem_emitEntries sb_not_mem_projectEntry _⟩

theorem sb_not_mem_combinedExpEntry (e : WorkExperience) :
    SECTION_BREAK ∉ combinedExpEntryElems e := by
  simp [combinedExpEntryElems]

theorem sb_not_mem_combinedExpLoop (n : Nat) :
    ∀ l : List WorkExperience, SECTION_BREAK ∉ combinedExpLoop n l := by
  intro l
  induction l with
  | nil => simp [combinedExpLoop]
  | cons e rest ih =>
    cases rest with
    | nil =>
      simp only [combinedExpLoop, List.mem_append, mem_ite_nil_iff]
      push_neg
      refine ⟨sb_not_mem_combinedExpEntry e, ?_⟩
      intro _
      simp
    | cons f t =>
      simp only [combinedExpLoop, List.mem_append, List.mem_cons]
      push_neg
      exact ⟨sb_not_mem_combinedExpEntry e, by simp, ih⟩

theorem sb_not_mem_combinedProjEntry (p : Project) :
    SECTION_BREAK ∉ combinedProjEntryElems p := by
  cases p with
  | mk nm de ts li =>
    cases ts <;> cases li <;> simp [combinedProjEntryElems, mem_ite_nil_iff]

theorem sb_not_mem_combinedProjLoop :
    ∀ l : List Project, SECTION_BREAK ∉ combinedProjLoop l := by
  intro l
  induction l with
  | nil => simp [combinedProjLoop]
  | cons p rest ih =>
    cases rest with
    | nil => simpa [combinedProjLoop] using sb_not_mem_combinedProjEntry p
    | cons q t =>
      simp only [combinedProjLoop, List.mem_append, List.mem_cons]
      push_neg
      exact ⟨sb_not_mem_combinedProjEntry p, by simp, ih⟩

theorem sb_not_mem_combined (r : Resume) :
    SECTION_BREAK ∉ transformCombinedExperienceProjectsSection r := by
  simp only [transformCombinedExperienceProjectsSection, List.mem_cons, List.mem_append]
  push_neg
  exact ⟨by simp, sb_not_mem_combinedExpLoop _ _, sb_not_mem_combinedProjLoop _⟩

theorem sb_not_mem_section (r : Resume) (key : String) :
    SECTION_BREAK ∉ sectionTransformers r key := by
  unfold sectionTransformers
  split
  · exact sb_not_mem_contact r
  · split
    · exact sb_not_mem_summary r
    · split
      · exact sb_not_mem_experience r
      · split
        · exact sb_not_mem_education r
        · split
          · exact sb_not_mem_skills r
          · split
            · exact sb_not_mem_projects r
            · split
              · exact sb_not_mem_combined r
              · simp

theorem emitSections_intercalate (r : Resume) :
    ∀ (ks : List String) (i n : Nat), i + ks.length = n →
      (∀ k ∈ ks, sectionTransformers r k ≠ []) →
      emitSections r n ks i =
        List.intercalate [SECTION_BREAK] (ks.map (sectionTransformers r)) := by
  intro ks
  induction ks with
  | nil => intro i n _ _; simp [emitSections, List.intercalate]
  | cons k rest ih =>
    intro i n hn hne
    cases rest with
    | nil =>
      simp only [List.length_cons, List.length_nil] at hn
      have hi : ¬ i < n - 1 := by omega
      have hk : sectionTransformers r k ≠ [] := hne k (by simp)
      simp [emitSections, hi, List.intercalate, List.length_pos.mpr hk]
    | cons k2 t =>
      have hi : i < n - 1 := by
        simp only [List.length_cons] at hn
        omega
      have hk : sectionTransformers r k ≠ [] := hne k (by simp)
      have hrec := ih (i + 1) n (by simp only [List.length_cons] at hn ⊢; omega)
        (fun x hx => hne x (List.mem_cons_of_mem _ hx))
      have step : emitSections r n (k :: k2 :: t) i =
          (if (sectionTransformers r k).length > 0 then
             sectionTransformers r k ++ (if i < n - 1 then [SECTION_BREAK] else [])
           else []) ++ emitSections r n (k2 :: t) (i + 1) := rfl
      rw [step, if_pos (List.length_pos.mpr hk), if_pos hi, hrec]
      simp [List.intercalate, List.intersperse]

theorem emitSections_count (r : Resume) :
    ∀ (ks : List String) (i n : Nat), i + ks.length = n →
      (emitSections r n ks i).count SECTION_BREAK =
        ((ks.map (sectionTransformers r)).dropLast.countP (fun s => !s.isEmpty)) := by
  intro ks
  induction ks with
  | nil => intro i n _; simp [emitSections]
  | cons k rest ih =>
    intro i n hn
    cases rest with
    | nil =>
      simp only [List.length_cons, List.length_nil] at hn
      have hi : ¬ i < n - 1 := by omega
      have hz : (sectionTransformers r k).count SECTION_BREAK = 0 :=
        List.count_eq_zero.mpr (sb_not_mem_section r k)
      by_cases hk : (sectionTransformers r k).length > 0 <;>
        simp [emitSections, hi, hk, List.count_append, hz]
    | cons k2 t =>
      have hi : i < n - 1 := by
        simp only [List.length_cons] at hn
        omega
      have hrec := ih (i + 1) n (by simp only [List.length_cons] at hn ⊢; omega)
      have hz : (sectionTransformers r k).count SECTION_BREAK = 0 :=
        List.count_eq_zero.mpr (sb_not_mem_section r k)
      have step : emitSections r n (k :: k2 :: t) i =
          (if (sectionTransformers r k).length > 0 then
             sectionTransformers r k ++ (if i < n - 1 then [SECTION_BREAK] else [])
           else []) ++ emitSections r n (k2 :: t) (i + 1) := rfl
      rw [step, if_pos hi]
      have hdl : ((k :: k2 :: t).map (sectionTransformers r)).dropLast =
          sectionTransformers r k :: ((k2 :: t).map (sectionTransformers r)).dropLast := by
        simp [List.dropLast]
      rw [hdl]
      by_cases hk : (sectionTransformers r k).length > 0
      · rw [if_pos hk]
        have hne : (!(sectionTransformers r k).isEmpty) = true := by
          cases hsec : sectionTransformers r k with
          | nil => simp [hsec] at hk
          | cons a l => simp [List.isEmpty]
        simp [List.count_append, hz, hrec, List.countP_cons, hne]
      · rw [if_neg hk]
        have hemp : (sectionTransformers r k).isEmpty = true := by
          cases hsec : sectionTransformers r k with
          | nil => simp [List.isEmpty]
          | cons a l => simp [hsec] at hk
        simp [hrec, List.countP_cons, hemp]

set_option maxRecDepth 40000 in
/-- C2 (amended): between any two consecutive non-empty sections the
transformer inserts exactly one `SectionBreak` — when every resolved
section is non-empty the document is exactly the sections interleaved with
single breaks and no trailing break; in general the number of breaks equals
the number of non-empty sections among all but the last resolved position,
so a `SectionBreak` DOES trail the last non-empty section whenever sections
after it are empty (witnessed by `trailingEmptyResume`, whose document ends
in a `SectionBreak`). -/
theorem claim_C2_section_breaks :
    (∀ (r : Resume) (so : Option (List String)),
       (∀ k ∈ validateSectionOrder so, sectionTransformers r k ≠ []) →
       (transformResumeToDocumentWithOrder r so).elements =
         List.intercalate [SECTION_BREAK]
           ((validateSectionOrder so).map (sectionTransformers r))) ∧
    (∀ (r : Resume) (so : Option (List String)),
       ((transformResumeToDocumentWithOrder r so).elements).count SECTION_BREAK =
         (((validateSectionOrder so).map (sectionTransformers r)).dropLast).countP
           (fun s => !s.isEmpty)) ∧
    (∀ k ∈ validateSectionOrder none, sectionTransformers fullResume k ≠ []) ∧
    (transformResumeToDocumentWithOrder fullResume none).elements =
      List.intercalate [SECTION_BREAK]
        ((validateSectionOrder none).map (sectionTransformers fullResume)) ∧
    (transformResumeToDocumentWithOrder trailingEmptyResume none).elements.getLast? =
      some SECTION_BREAK := by
  refine ⟨?_, ?_, by decide, by decide, by decide⟩
  · intro r so hne
    exact emitSections_intercalate r (validateSectionOrder so) 0 _ (by simp) hne
  · intro r so
    exact emitSections_count r (validateSectionOrder so) 0 _ (by simp)

set_option maxRecDepth 40000 in
/-- C2 counterexample: for `trailingEmptyResume` (non-empty skills followed
only by the empty projects section in the default order) the produced
document's last element IS a `SectionBreak`, contradicting the claim that
no `SectionBreak` follows the last emitted section. -/
theorem claim_C2_counterexample :
    (transformResumeToDocumentWithOrder trailingEmptyResume none).elements.getLast? =
      some SECTION_BREAK := by decide

theorem mem_emitEntries_of {α : Type} {f : α → List DocumentElement}
    {x : α} {e : DocumentElement} (he : e ∈ f x) :
    ∀ {l : List α}, x ∈ l → e ∈ emitEntries f l := by
  intro l
  induction l with
  | nil => intro hx; simp at hx
  | cons a rest ih =>
    intro hx
    cases rest with
    | nil =>
      have : x = a := by simpa using hx
      subst this
      simpa [emitEntries] using he
    | cons b t =>
      rcases List.mem_cons.mp hx with h | h
      · subst h
        simp only [emitEntries, List.mem_append]
        exact Or.inl he
      · simp only [emitEntries, List.mem_append, List.mem_cons]
        exact Or.inr (Or.inr (ih h))

theorem mem_combinedExpLoop_of (n : Nat) {x : WorkExperience}
    {e : DocumentElement} (he : e ∈ combinedExpEntryElems x) :
    ∀ {l : List WorkExperience}, x ∈ l → e ∈ combinedExpLoop n l := by
  intro l
  induction l with
  | nil => intro hx; simp at hx
  | cons a rest ih =>
    intro hx
    cases rest with
    | nil =>
      have : x = a := by simpa using hx
      subst this
      simp only [combinedExpLoop, List.mem_append]
      exact Or.inl he
    | cons b t =>
      rcases List.mem_cons.mp hx with h | h
      · subst h
        simp only [combinedExpLoop, List.mem_append]
        exact Or.inl he
      · simp only [combinedExpLoop, List.mem_append, List.mem_cons]
        exact Or.inr (Or.inr (ih h))

set_option maxRecDepth 40000 in
/-- C6 (amended): in the standalone Work Experience section every entry's
date-range `TextLine` is `"{startDate} - {endDate}"` with the literal
`"Present"` fallback when `endDate` is absent; the combined Experience &
Projects section does NOT reuse that rendering: its meta line joins the
optional location with a date range that is `"{startDate} – {endDate}"`
(en dash) when `endDate` is present and non-blank, and the bare
`startDate` with no `"Present"` fallback when it is absent. -/
theorem claim_C6_date_rendering :
    (∀ exp : WorkExperience, exp.endDate = none →
       experienceDateLine exp = exp.startDate ++ " - Present") ∧
    (∀ (exp : WorkExperience) (e : String), exp.endDate = some e →
       strTruthy e = true →
       experienceDateLine exp = exp.startDate ++ " - " ++ e) ∧
    (∀ (r : Resume), ∀ exp ∈ r.experience,
       TEXT_LINE (experienceDateLine exp) ∈ transformExperienceSection r) ∧
    (∀ (r : Resume), ∀ exp ∈ r.experience,
       TEXT_LINE (combinedMetaLine exp) ∈
         transformCombinedExperienceProjectsSection r) ∧
    (∀ exp : WorkExperience, exp.endDate = none →
       combinedDateRange exp = exp.startDate) ∧
    (∀ (exp : WorkExperience) (e : String), exp.endDate = some e →
       strTruthy e = true → (jsTrim e == "") = false →
       combinedDateRange exp = exp.startDate ++ " – " ++ e) ∧
    (∀ exp : WorkExperience, exp.location = none → exp.endDate = none →
       combinedMetaLine exp = exp.startDate) := by
  refine ⟨?_, ?_, ?_, ?_, ?_, ?_, ?_⟩
  · intro exp h; simp [experienceDateLine, h]
  · intro exp e h ht; simp [experienceDateLine, h, ht]
  · intro r exp hx
    have hne : ¬ (r.experience.length == 0) = true := by
      cases hexp : r.experience with
      | nil => rw [hexp] at hx; simp at hx
      | cons a l => simp [hexp]
    simp only [transformExperienceSection, if_neg hne, List.mem_cons]
    right
    exact mem_emitEntries_of (by simp [experienceEntryElems]) hx
  · intro r exp hx
    simp only [transformCombinedExperienceProjectsSection, List.mem_cons,
      List.mem_append]
    right; left
    exact mem_combinedExpLoop_of _ (by simp [combinedExpEntryElems]) hx
  · intro exp h; simp [combinedDateRange, h]
  · intro exp e h ht htr; simp [combinedDateRange, h, ht, htr]
  · intro exp hloc hend
    simp [combinedMetaLine, hloc, combinedDateRange, hend, String.intercalate,
      String.intercalate.go]

set_option maxRecDepth 40000 in
/-- C6 counterexample: for a combined-section experience entry without an
end date the claimed date line `"2020 - Present"` appears nowhere in the
document; the entry's meta line is the bare `"2020"`. -/
theorem claim_C6_counterexample :
    TEXT_LINE "2020 - Present" ∉
      (transformResumeToDocumentWithOrder openEndedExpResume
        (some ["experienceProjects"])).elements ∧
    TEXT_LINE "2020" ∈
      (transformResumeToDocumentWithOrder openEndedExpResume
        (some ["experienceProjects"])).elements := by decide

/-! ### Unknown category prefixes and the Other bucket (C9).  The alias
access traverses the prototype chain, so the two reserved lowercase names
`constructor` and `__proto__` must be excluded: at those prefixes the skill
is grouped under a truthy inherited non-string value and dropped. -/

theorem head_not_ws {c : Char} {cs : List Char}
    (h : (c :: cs).dropWhile jsWhitespaceChar = c :: cs) :
    jsWhitespaceChar c = false := by
  have := List.dropWhile_eq_self_iff.mp h (by simp)
  simpa using this

theorem trim_eq_self_facts {cs : List Char} (h : trimChars cs = cs) :
    cs.dropWhile jsWhitespaceChar = cs ∧
    cs.reverse.dropWhile jsWhitespaceChar = cs.reverse := by
  have h1 : (cs.dropWhile jsWhitespaceChar).length ≤ cs.length :=
    (List.dropWhile_suffix _).length_le
  have h2 : (((cs.dropWhile jsWhitespaceChar).reverse.dropWhile jsWhitespaceChar)).length ≤
      (cs.dropWhile jsWhitespaceChar).length := by
    have := (List.dropWhile_suffix
      (l := (cs.dropWhile jsWhitespaceChar).reverse) jsWhitespaceChar).length_le
    simpa using this
  have hlen : (((cs.dropWhile jsWhitespaceChar).reverse.dropWhile jsWhitespaceChar)).length
      = cs.length := by
    have : (trimChars cs).length = cs.length := by rw [h]
    simpa [trimChars] using this
  have heq1 : cs.dropWhile jsWhitespaceChar = cs :=
    (List.dropWhile_suffix _).eq_of_length (by omega)
  refine ⟨heq1, ?_⟩
  have hrev : (cs.reverse.dropWhile jsWhitespaceChar).reverse = cs := by
    have h' := h
    simp only [trimChars, heq1] at h'
    exact h'
  have := congrArg List.reverse hrev
  simpa using this

theorem dropWhile_append_of_head {c : Char} {cs ys : List Char}
    (h : jsWhitespaceChar c = false) :
    ((c :: cs) ++ ys).dropWhile jsWhitespaceChar = (c :: cs) ++ ys := by
  simp [List.dropWhile_cons, h]

theorem findSub_colon_space (pre : List Char) (h : (':' : Char) ∉ pre)
    (rest : List Char) :
    findSub [':', ' '] (pre ++ ':' :: ' ' :: rest) = some pre.length := by
  induction pre with
  | nil => simp [findSub, charsPrefixOf]
  | cons c cs ih =>
    have hne : c ≠ ':' := fun he => h (he ▸ List.mem_cons_self c cs)
    have hc : ((':' : Char) == c) = false := by
      simp only [beq_eq_false_iff_ne]
      exact fun he => hne he.symm
    simp only [List.cons_append, findSub, charsPrefixOf, hc, Bool.false_and,
      if_neg Bool.false_ne_true, List.append_eq]
    rw [ih (fun hm => h (List.mem_cons_of_mem _ hm))]
    simp

set_option maxRecDepth 40000 in
/-- C9 counterexample: the skill `"Constructor: Name"` meets every condition
of the claim — prefix free of colons, both parts trimmed and non-empty,
lowercased prefix `"constructor"` absent from the alias table — yet it does
not land in the `Other` bucket: the alias access hits the truthy inherited
`Object.prototype.constructor`, so the parsed category is that non-string
value, and the skills section silently drops the skill (no `TEXT_LINE` is
emitted at all). -/
theorem claim_C9_counterexample :
    CATEGORY_ALIASES.lookup (lowerStr "Constructor") = none ∧
    parseSkillWithCategory ("Constructor" ++ ": " ++ "Name") =
      { category := SkillCategory.inheritedConstructor, skill := "Name" } ∧
    transformSkillsSection (resumeWithSkills ["Constructor: Name"]) =
      [HEADING 2 "Skills"] := by decide

/-- C9 (amended): a skill of the form `"Prefix: Name"` (prefix free of
colons, both parts trimmed and non-empty) whose lowercased prefix is not in
the category alias table and is neither of the reserved `Object.prototype`
member names `"constructor"` and `"__proto__"` parses to the `Other`
category with the prefix stripped: the rendered skill text is `Name` alone.
(For the two reserved prefixes the inherited prototype value becomes the
category and the skill is dropped from the emitted section.) -/
theorem claim_C9_unknown_category_prefix (p n : String)
    (hcolon : (':' : Char) ∉ p.data)
    (hptrim : jsTrim p = p) (hpne : p ≠ "")
    (hntrim : jsTrim n = n) (hnne : n ≠ "")
    (halias : CATEGORY_ALIASES.lookup (lowerStr p) = none)
    (hc1 : lowerStr p ≠ "constructor")
    (hc2 : lowerStr p ≠ "__proto__") :
    parseSkillWithCategory (p ++ ": " ++ n) =
      { category := SkillCategory.name "Other", skill := n } := by
  obtain ⟨pd⟩ := p
  obtain ⟨nd⟩ := n
  have hpd : pd ≠ [] := by
    intro h
    exact hpne (by rw [h])
  have hnd : nd ≠ [] := by
    intro h
    exact hnne (by rw [h])
  have hptrim' : trimChars pd = pd := by
    have := congrArg String.data hptrim
    simpa [jsTrim] using this
  have hntrim' : trimChars nd = nd := by
    have := congrArg String.data hntrim
    simpa [jsTrim] using this
  have hW : (String.mk pd ++ ": " ++ String.mk nd) =
      String.mk (pd ++ ':' :: ' ' :: nd) := by
    apply String.ext
    show (pd ++ (": " : String).data) ++ nd = pd ++ ':' :: ' ' :: nd
    rw [List.append_assoc]
    rfl
  rw [hW]
  obtain ⟨hpfwd, -⟩ := trim_eq_self_facts hptrim'
  obtain ⟨-, hnrev⟩ := trim_eq_self_facts hntrim'
  obtain ⟨c, cs, rfl⟩ : ∃ c cs, pd = c :: cs := by
    cases pd with
    | nil => exact absurd rfl hpd
    | cons c cs => exact ⟨c, cs, rfl⟩
  have hhead : jsWhitespaceChar c = false := head_not_ws hpfwd
  have hfwd : ((c :: cs) ++ ':' :: ' ' :: nd).dropWhile jsWhitespaceChar =
      (c :: cs) ++ ':' :: ' ' :: nd := dropWhile_append_of_head hhead
  have htrimW : trimChars ((c :: cs) ++ ':' :: ' ' :: nd) =
      (c :: cs) ++ ':' :: ' ' :: nd := by
    unfold trimChars
    rw [hfwd]
    obtain ⟨c2, cs2, hnr⟩ : ∃ c2 cs2, nd.reverse = c2 :: cs2 := by
      cases hx : nd.reverse with
      | nil =>
        exfalso
        exact hnd (by simpa using congrArg List.reverse hx)
      | cons c2 cs2 => exact ⟨c2, cs2, rfl⟩
    have hhead2 : jsWhitespaceChar c2 = false := by
      rw [hnr] at hnrev
      exact head_not_ws hnrev
    have hrev : ((c :: cs) ++ ':' :: ' ' :: nd).reverse =
        (c2 :: cs2) ++ ([' ', ':'] ++ (c :: cs).reverse) := by
      rw [show ((c :: cs) ++ ':' :: ' ' :: nd) =
            ((c :: cs) ++ [':', ' ']) ++ nd by simp]
      rw [List.reverse_append, List.reverse_append, hnr]
      simp
    rw [hrev, dropWhile_append_of_head hhead2, ← hrev]
    simp
  have hjstrimW : jsTrim (String.mk ((c :: cs) ++ ':' :: ' ' :: nd)) =
      String.mk ((c :: cs) ++ ':' :: ' ' :: nd) := by
    apply String.ext
    simpa [jsTrim] using htrimW
  have hidx : strIndexOf (String.mk ((c :: cs) ++ ':' :: ' ' :: nd)) ": " =
      some (c :: cs).length := findSub_colon_space _ hcolon nd
  have htake : strTake (String.mk ((c :: cs) ++ ':' :: ' ' :: nd)) (c :: cs).length =
      String.mk (c :: cs) := by
    apply String.ext
    simp [strTake, List.take_left]

  have hdrop : strDrop (String.mk ((c :: cs) ++ ':' :: ' ' :: nd)) ((c :: cs).length + 2) =
      String.mk nd := by
    apply String.ext
    show ((c :: cs) ++ ':' :: ' ' :: nd).drop ((c :: cs).length + 2) = nd
    rw [show ((c :: cs) ++ ':' :: ' ' :: nd) = ((c :: cs) ++ [':', ' ']) ++ nd by simp]
    have h2 := List.drop_left ((c :: cs) ++ [':', ' ']) nd
    simp only [List.length_append, List.length_cons, List.length_nil] at h2
    convert h2 using 2
  have hplen : (String.mk (c :: cs)).length > 0 := by simp [String.length]
  have hnlen : (String.mk nd).length > 0 := by
    cases nd with
    | nil => exact absurd rfl hnd
    | cons a l => simp [String.length]
  simp only [parseSkillWithCategory, hjstrimW, hidx, htake, hdrop]
  rw [if_pos (by simp)]
  rw [hptrim, hntrim]
  rw [if_pos (by simp only [hplen, hnlen]; rfl)]
  simp only [categoryAliasGet, halias]
  rw [if_neg (by simpa using hc1), if_neg (by simpa using hc2)]
  rfl

/-- Witness for C9 at the concrete skill string `"Bogus: Name"`. -/
theorem claim_C9_witness :
    parseSkillWithCategory ("Bogus" ++ ": " ++ "Name") =
      { category := SkillCategory.name "Other", skill := "Name" } :=
  claim_C9_unknown_category_prefix "Bogus" "Name" (by decide) (by decide)
    (by decide) (by decide) (by decide) (by decide) (by decide) (by decide)

/-! ### Validator theorems (C1, C3, C7) -/

theorem validateRequiredString_field (v : JsValue) (f : String) (m : Nat) :
    ∀ e ∈ (validateRequiredString v f m).1, e.field = f := by
  intro e he
  cases v <;> simp only [validateRequiredString] at he
  case str s => split_ifs at he <;> simp_all
  all_goals simp_all

theorem validateRequiredString_true (v : JsValue) (f : String) (m : Nat)
    (h : (validateRequiredString v f m).2 = true) :
    (validateRequiredString v f m).1 = [] := by
  cases v <;> simp only [validateRequiredString] at h ⊢
  case str s =>
    split_ifs at h ⊢
    all_goals simp_all
  all_goals simp_all


theorem validateRequiredString_false_len (v : JsValue) (f : String) (m : Nat)
    (h : (validateRequiredString v f m).2 = false) :
    (validateRequiredString v f m).1.length = 1 := by
  cases v <;> simp only [validateRequiredString] at h ⊢
  case str s => split_ifs at h ⊢ <;> simp_all
  all_goals simp

theorem validateRequiredString_snd_irrel (v : JsValue) (f g : String) (m : Nat) :
    (validateRequiredString v f m).2 = (validateRequiredString v g m).2 := by
  cases v <;> simp only [validateRequiredString]
  case str s => split_ifs <;> rfl

theorem validateOptionalString_field (v : JsValue) (f : String) (m : Nat) :
    ∀ e ∈ (validateOptionalString v f m).1, e.field = f := by
  intro e he
  cases v <;> simp only [validateOptionalString] at he <;>
    first
      | simp_all
      | exact validateRequiredString_field _ _ _ e he
  case str s =>
    split_ifs at he
    · simp at he
    · exact validateRequiredString_field _ _ _ e he

theorem validateRequiredString_undef (f : String) (m : Nat) :
    validateRequiredString JsValue.undef f m =
      ([{ type := ErrorType.INVALID_TYPE, field := f,
          message := f ++ " must be a string", value := JsValue.undef }], false) := rfl

theorem data_head_append (s t : String) {c : Char}
    (h : s.data.head? = some c) : (s ++ t).data.head? = some c := by
  obtain ⟨d⟩ := s
  cases d with
  | nil => simp at h
  | cons a l =>
    simp only [List.head?_cons, Option.some.injEq] at h
    subst h
    rfl

theorem validateArrayItems_field (f : String) (m : Nat) :
    ∀ (l : JsList) (i : Nat), ∀ e ∈ (validateArrayItems f m l i).1,
      ∃ j : Nat, e.field = f ++ "[" ++ toString j ++ "]"
  | JsList.nil, i, e, he => by simp [validateArrayItems] at he
  | JsList.cons item tl, i, e, he => by
    simp only [validateArrayItems] at he
    split at he
    · rcases List.mem_append.mp he with h | h
      · exact ⟨i, validateRequiredString_field _ _ _ e h⟩
      · exact validateArrayItems_field f m tl (i + 1) e h
    · exact ⟨i, validateRequiredString_field _ _ _ e he⟩

theorem validateStringArray_field (v : JsValue) (f : String) (mi ml : Nat) :
    ∀ e ∈ (validateStringArray v f mi ml).1,
      e.field = f ∨ ∃ j : Nat, e.field = f ++ "[" ++ toString j ++ "]" := by
  intro e he
  cases v <;> simp only [validateStringArray] at he
  case arr elems =>
    split at he
    · simp at he; simp [he]
    · exact Or.inr (validateArrayItems_field f ml elems 0 e he)
  all_goals (simp at he; simp [he])

theorem validateContactInfo_fields (d : JsValue) (limits : ValidationLimits) :
    ∀ e ∈ validateContactInfo d limits,
      e.field ∈ (["contact", "contact.fullName", "contact.email", "contact.phone",
        "contact.location", "contact.linkedin", "contact.github",
        "contact.portfolio", "contact.twitter"] : List String) := by
  intro e he
  unfold validateContactInfo at he
  split at he
  · simp at he; simp [he]
  · simp only [List.mem_append] at he
    rcases he with (((((((h | h) | h) | h) | h) | h) | h) | h)
    · simp [validateRequiredString_field _ _ _ e h]
    · simp [validateRequiredString_field _ _ _ e h]
    · simp [validateRequiredString_field _ _ _ e h]
    · simp [validateRequiredString_field _ _ _ e h]
    · simp [validateOptionalString_field _ _ _ e h]
    · simp [validateOptionalString_field _ _ _ e h]
    · simp [validateOptionalString_field _ _ _ e h]
    · simp [validateOptionalString_field _ _ _ e h]

theorem validateProfessionalSummary_fields (d : JsValue) (limits : ValidationLimits) :
    ∀ e ∈ validateProfessionalSummary d limits,
      e.field ∈ (["summary", "summary.summary"] : List String) := by
  intro e he
  unfold validateProfessionalSummary at he
  split at he
  · simp at he; simp [he]
  · simp [validateRequiredString_field _ _ _ e he]

theorem validateWorkExperience_head (d : JsValue) (i : Nat) (limits : ValidationLimits) :
    ∀ e ∈ validateWorkExperience d i limits, e.field.data.head? = some 'e' := by
  intro e he
  have hbase : ∀ (t : String), ("experience[" ++ t).data.head? = some 'e' :=
    fun t => data_head_append "experience[" t rfl
  unfold validateWorkExperience at he
  split at he
  · simp at he
    rw [he]
    exact hbase _
  · simp only [List.mem_append] at he
    rcases he with ((((( h | h) | h) | h) | h) | h)
    · rw [validateRequiredString_field _ _ _ e h]; exact data_head_append _ _ (hbase _)
    · rw [validateRequiredString_field _ _ _ e h]; exact data_head_append _ _ (hbase _)
    · rw [validateRequiredString_field _ _ _ e h]; exact data_head_append _ _ (hbase _)
    · rw [validateOptionalString_field _ _ _ e h]; exact data_head_append _ _ (hbase _)
    · rw [validateOptionalString_field _ _ _ e h]; exact data_head_append _ _ (hbase _)
    · rcases validateStringArray_field _ _ _ _ e h with h1 | ⟨j, h1⟩
      · rw [h1]; exact data_head_append _ _ (hbase _)
      · rw [h1]
        exact data_head_append _ _ (data_head_append _ _ (data_head_append _ _ (hbase _)))

theorem courseWorkErrors_head (entryPath : String) (m : Nat)
    (hhead : ∀ (t : String), (entryPath ++ t).data.head? = some 'e') :
    ∀ (l : JsList) (i : Nat), ∀ e ∈ courseWorkErrors entryPath m l i,
      e.field.data.head? = some 'e'
  | JsList.nil, i, e, he => by simp [courseWorkErrors] at he
  | JsList.cons course tl, i, e, he => by
    simp only [courseWorkErrors, List.mem_append] at he
    rcases he with h | h
    · have : e.field = entryPath ++ ".relevantCourseWorks[" ++ toString i ++ "]" := by
        cases course <;> simp only [] at h <;> (try split_ifs at h) <;> simp_all
      rw [this]
      exact data_head_append _ _ (data_head_append _ _ (hhead _))
    · exact courseWorkErrors_head entryPath m hhead tl (i + 1) e h

theorem validateEducation_head (d : JsValue) (i : Nat) (limits : ValidationLimits) :
    ∀ e ∈ validateEducation d i limits, e.field.data.head? = some 'e' := by
  intro e he
  have hbase : ∀ (t : String), ("education[" ++ t).data.head? = some 'e' :=
    fun t => data_head_append "education[" t rfl
  have hbase2 : ∀ (t : String),
      (("education[" ++ toString i ++ "]") ++ t).data.head? = some 'e' :=
    fun t => data_head_append _ _ (data_head_append _ _ (hbase _))
  unfold validateEducation at he
  split at he
  · simp at he
    rw [he]
    exact hbase _
  · simp only [List.mem_append] at he
    rcases he with (((((( h | h) | h) | h) | h) | h) | h)
    · rw [validateRequiredString_field _ _ _ e h]; exact hbase2 _
    · rw [validateRequiredString_field _ _ _ e h]; exact hbase2 _
    · rw [validateRequiredString_field _ _ _ e h]; exact hbase2 _
    · rw [validateOptionalString_field _ _ _ e h]; exact hbase2 _
    · rw [validateOptionalString_field _ _ _ e h]; exact hbase2 _
    · rw [validateOptionalString_field _ _ _ e h]; exact hbase2 _
    · rcases hv : jsGetProp d "relevantCourseWorks" with _ | _ | _ | _ | _ | courses | _ <;>
        rw [hv] at h
      case undef => simp at h
      case arr =>
        exact courseWorkErrors_head _ _ (fun t => hbase2 t) courses 0 e h
      all_goals (simp at h; rw [h]; exact hbase2 _)

theorem validateSkills_head (d : JsValue) (limits : ValidationLimits) :
    ∀ e ∈ validateSkills d limits, e.field.data.head? = some 's' := by
  intro e he
  unfold validateSkills at he
  split at he
  · simp at he; rw [he]; rfl
  · rcases validateStringArray_field _ _ _ _ e he with h1 | ⟨j, h1⟩
    · rw [h1]; rfl
    · rw [h1]
      exact data_head_append _ _ (data_head_append _ _ (data_head_append "skills.skills" _ rfl))

theorem validateProject_head (d : JsValue) (i : Nat) (limits : ValidationLimits) :
    ∀ e ∈ validateProject d i limits, e.field.data.head? = some 'p' := by
  intro e he
  have hbase : ∀ (t : String), ("projects[" ++ t).data.head? = some 'p' :=
    fun t => data_head_append "projects[" t rfl
  have hbase2 : ∀ (t : String),
      (("projects[" ++ toString i ++ "]") ++ t).data.head? = some 'p' :=
    fun t => data_head_append _ _ (data_head_append _ _ (hbase _))
  unfold validateProject at he
  split at he
  · simp at he
    rw [he]
    exact hbase _
  · simp only [List.mem_append] at he
    rcases he with ((( h | h) | h) | h)
    · rw [validateRequiredString_field _ _ _ e h]; exact hbase2 _
    · rcases validateStringArray_field _ _ _ _ e h with h1 | ⟨j, h1⟩
      · rw [h1]; exact hbase2 _
      · rw [h1]
        exact data_head_append _ _ (data_head_append _ _ (data_head_append _ _ (hbase2 _)))
    · rcases hv : jsGetProp d "techStack" with _ | _ | _ | _ | _ | ts | _ <;>
        rw [hv] at h
      case undef => simp at h
      all_goals {
        rcases validateStringArray_field _ _ _ _ e h with h1 | ⟨j, h1⟩
        · rw [h1]; exact hbase2 _
        · rw [h1]
          exact data_head_append _ _ (data_head_append _ _ (data_head_append _ _ (hbase2 _))) }
    · rw [validateOptionalString_field _ _ _ e h]; exact hbase2 _

theorem validateExperienceList_head (limits : ValidationLimits) :
    ∀ (l : JsList) (i : Nat), ∀ e ∈ validateExperienceList limits l i,
      e.field.data.head? = some 'e'
  | JsList.nil, i, e, he => by simp [validateExperienceList] at he
  | JsList.cons x tl, i, e, he => by
    simp only [validateExperienceList, List.mem_append] at he
    rcases he with h | h
    · exact validateWorkExperience_head x i limits e h
    · exact validateExperienceList_head limits tl (i + 1) e h

theorem validateEducationList_head (limits : ValidationLimits) :
    ∀ (l : JsList) (i : Nat), ∀ e ∈ validateEducationList limits l i,
      e.field.data.head? = some 'e'
  | JsList.nil, i, e, he => by simp [validateEducationList] at he
  | JsList.cons x tl, i, e, he => by
    simp only [validateEducationList, List.mem_append] at he
    rcases he with h | h
    · exact validateEducation_head x i limits e h
    · exact validateEducationList_head limits tl (i + 1) e h

theorem validateProjectList_head (limits : ValidationLimits) :
    ∀ (l : JsList) (i : Nat), ∀ e ∈ validateProjectList limits l i,
      e.field.data.head? = some 'p'
  | JsList.nil, i, e, he => by simp [validateProjectList] at he
  | JsList.cons x tl, i, e, he => by
    simp only [validateProjectList, List.mem_append] at he
    rcases he with h | h
    · exact validateProject_head x i limits e h
    · exact validateProjectList_head limits tl (i + 1) e h

theorem filter_contact_email_nil {l : List ValidationError} {g : String}
    (hl : ∀ e ∈ l, e.field = g) (hg : g ≠ "contact.email") :
    l.filter (fun e => e.field == "contact.email") = [] := by
  apply List.filter_eq_nil_iff.mpr
  intro e he
  simp [hl e he, hg]

theorem filter_contact_email_nil_of_head {l : List ValidationError} {c : Char}
    (hl : ∀ e ∈ l, e.field.data.head? = some c) (hc : c ≠ 'c') :
    l.filter (fun e => e.field == "contact.email") = [] := by
  apply List.filter_eq_nil_iff.mpr
  intro e he
  have h := hl e he
  simp only [Bool.not_eq_true, beq_eq_false_iff_ne]
  intro heq
  rw [heq] at h
  injection (show some 'c' = some c from h) with h2
  exact hc h2.symm

theorem sectionOrMissing_prop {v : JsValue} {field msg : String}
    {validate : JsValue → List ValidationError} {P : ValidationError → Prop}
    (hmiss : P { type := ErrorType.REQUIRED_FIELD_MISSING, field := field,
                 message := msg })
    (hval : ∀ w, ∀ e ∈ validate w, P e) :
    ∀ e ∈ sectionOrMissing v field msg validate, P e := by
  intro e he
  cases v <;> simp only [sectionOrMissing] at he
  case undef =>
    simp at he
    rw [he]
    exact hmiss
  all_goals exact hval _ e he

theorem arraySection_prop {v : JsValue} {field msg : String} {maxE : Nat}
    {emsg : String} {validateAll : JsList → List ValidationError}
    {P : ValidationError → Prop}
    (hfield : ∀ t m w, P { type := t, field := field, message := m, value := w })
    (hval : ∀ l, ∀ e ∈ validateAll l, P e) :
    ∀ e ∈ arraySection v field msg maxE emsg validateAll, P e := by
  intro e he
  cases v <;> simp only [arraySection] at he
  case arr elems =>
    split at he
    · simp at he
      rw [he]
      apply hfield
    · exact hval _ e he
  all_goals (simp at he; rw [he]; apply hfield)

theorem validateProfessionalSummary_head (d : JsValue) (limits : ValidationLimits) :
    ∀ e ∈ validateProfessionalSummary d limits, e.field.data.head? = some 's' := by
  intro e he
  have h := validateProfessionalSummary_fields d limits e he
  simp only [List.mem_cons, List.not_mem_nil, or_false] at h
  rcases h with h | h <;> (rw [h]; rfl)

theorem validateResume_errors_structural (fields : JsFields)
    (limits : ValidationLimits)
    (hsize : getJsonSize (JsValue.obj fields) ≤ limits.maxJsonSize)
    (hsafe : isStructureSafe (JsValue.obj fields) limits.maxObjectDepth = true) :
    (validateResume (JsValue.obj fields) limits).errors =
      sectionOrMissing (jsGetProp (JsValue.obj fields) "contact") "contact"
        "Contact information is required" (fun v => validateContactInfo v limits) ++
      sectionOrMissing (jsGetProp (JsValue.obj fields) "summary") "summary"
        "Professional summary is required"
        (fun v => validateProfessionalSummary v limits) ++
      arraySection (jsGetProp (JsValue.obj fields) "experience") "experience"
        "Work experience must be an array" limits.maxExperienceEntries
        ("Work experience exceeds maximum of " ++
          toString limits.maxExperienceEntries ++ " entries")
        (fun elems => validateExperienceList limits elems 0) ++
      arraySection (jsGetProp (JsValue.obj fields) "education") "education"
        "Education must be an array" limits.maxEducationEntries
        ("Education exceeds maximum of " ++
          toString limits.maxEducationEntries ++ " entries")
        (fun elems => validateEducationList limits elems 0) ++
      sectionOrMissing (jsGetProp (JsValue.obj fields) "skills") "skills"
        "Skills section is required" (fun v => validateSkills v limits) ++
      arraySection (jsGetProp (JsValue.obj fields) "projects") "projects"
        "Projects must be an array" limits.maxProjectEntries
        ("Projects exceeds maximum of " ++
          toString limits.maxProjectEntries ++ " entries")
        (fun elems => validateProjectList limits elems 0) := by
  simp only [validateResume]
  rw [if_neg (by simp [jsTypeof, isArrayVal])]
  rw [if_neg (by omega)]
  rw [if_neg (by simp [hsafe])]

set_option maxRecDepth 4000 in
/-- C1 (amended): for every input object passing the structural checks
whose `contact` property is an object lacking `email`, `validateResume`
returns exactly one error whose field is `contact.email` — but its type is
`INVALID_TYPE` (from the `typeof undefined !== "string"` branch), not
`REQUIRED_FIELD_MISSING`, which fires only when `email` is present but
empty after trimming; errors for other independently missing fields are
unaffected (they never carry the field `contact.email`). -/
theorem claim_C1_missing_email_error (fields cfields : JsFields) (limits : ValidationLimits)
    (hsize : getJsonSize (JsValue.obj fields) ≤ limits.maxJsonSize)
    (hsafe : isStructureSafe (JsValue.obj fields) limits.maxObjectDepth = true)
    (hcontact : getField fields "contact" = JsValue.obj cfields)
    (hemail : getField cfields "email" = JsValue.undef) :
    (validateResume (JsValue.obj fields) limits).errors.filter
        (fun e => e.field == "contact.email") =
      [{ type := ErrorType.INVALID_TYPE, field := "contact.email",
         message := "contact.email must be a string", value := JsValue.undef }] := by
  rw [validateResume_errors_structural fields limits hsize hsafe]
  simp only [List.filter_append]
  have hc1 : (sectionOrMissing (jsGetProp (JsValue.obj fields) "contact") "contact"
      "Contact information is required" (fun v => validateContactInfo v limits)) =
      validateContactInfo (JsValue.obj cfields) limits := by
    show sectionOrMissing (getField fields "contact") _ _ _ = _
    rw [hcontact]
    rfl
  rw [hc1]
  have hc2 : (validateContactInfo (JsValue.obj cfields) limits).filter
      (fun e => e.field == "contact.email") =
      [{ type := ErrorType.INVALID_TYPE, field := "contact.email",
         message := "contact.email must be a string", value := JsValue.undef }] := by
    unfold validateContactInfo
    rw [if_neg (by simp [jsTypeof])]
    simp only [List.filter_append]
    rw [show jsGetProp (JsValue.obj cfields) "email" = JsValue.undef from hemail]
    rw [validateRequiredString_undef]
    rw [filter_contact_email_nil (validateRequiredString_field _ _ _) (by decide)]
    rw [filter_contact_email_nil (validateRequiredString_field _ _ _) (by decide)]
    rw [filter_contact_email_nil (validateRequiredString_field _ _ _) (by decide)]
    rw [filter_contact_email_nil (validateOptionalString_field _ _ _) (by decide)]
    rw [filter_contact_email_nil (validateOptionalString_field _ _ _) (by decide)]
    rw [filter_contact_email_nil (validateOptionalString_field _ _ _) (by decide)]
    rw [filter_contact_email_nil (validateOptionalString_field _ _ _) (by decide)]
    simp
  rw [hc2]
  rw [filter_contact_email_nil_of_head
    (sectionOrMissing_prop (by rfl) (fun w => validateProfessionalSummary_head w limits))
    (by decide)]
  rw [filter_contact_email_nil_of_head
    (arraySection_prop (fun t m w => by rfl)
      (fun l => validateExperienceList_head limits l 0))
    (by decide)]
  rw [filter_contact_email_nil_of_head
    (arraySection_prop (fun t m w => by rfl)
      (fun l => validateEducationList_head limits l 0))
    (by decide)]
  rw [filter_contact_email_nil_of_head
    (sectionOrMissing_prop (by rfl) (fun w => validateSkills_head w limits))
    (by decide)]
  rw [filter_contact_email_nil_of_head
    (arraySection_prop (fun t m w => by rfl)
      (fun l => validateProjectList_head limits l 0))
    (by decide)]
  simp

theorem jsListLength_ofList (l : List JsValue) :
    jsListLength (jsListOfList l) = l.length := by
  induction l with
  | nil => rfl
  | cons x xs ih => simp [jsListOfList, jsListLength, ih]

theorem validateArrayItems_first_failure (f : String) (m : Nat)
    (bad : JsValue) (ys : List JsValue)
    (hbad : (validateRequiredString bad f m).2 = false) :
    ∀ (xs : List JsValue) (i : Nat),
      (∀ x ∈ xs, (validateRequiredString x f m).2 = true) →
      validateArrayItems f m (jsListOfList (xs ++ bad :: ys)) i =
        ((validateRequiredString bad (f ++ "[" ++ toString (i + xs.length) ++ "]") m).1,
         false) := by
  intro xs
  induction xs with
  | nil =>
    intro i _
    have hb : (validateRequiredString bad (f ++ "[" ++ toString i ++ "]") m).2 = false := by
      rw [validateRequiredString_snd_irrel bad _ f m]
      exact hbad
    simp only [List.nil_append, jsListOfList, validateArrayItems, hb,
      Bool.false_eq_true, if_false]
    simp
  | cons x xs ih =>
    intro i hall
    have hx : (validateRequiredString x (f ++ "[" ++ toString i ++ "]") m).2 = true := by
      rw [validateRequiredString_snd_irrel x _ f m]
      exact hall x (List.mem_cons_self x xs)
    simp only [List.cons_append, jsListOfList, validateArrayItems, hx, if_true,
      List.append_eq]
    rw [validateRequiredString_true _ _ _ hx]
    rw [ih (i + 1) (fun y hy => hall y (List.mem_cons_of_mem _ hy))]
    rw [show i + 1 + xs.length = i + (x :: xs).length by simp [List.length_cons]; omega]
    simp

theorem validateArrayItems_all_pass (f : String) (m : Nat) :
    ∀ (xs : List JsValue) (i : Nat),
      (∀ x ∈ xs, (validateRequiredString x f m).2 = true) →
      validateArrayItems f m (jsListOfList xs) i = ([], true) := by
  intro xs
  induction xs with
  | nil => intro i _; rfl
  | cons x xs ih =>
    intro i hall
    have hx : (validateRequiredString x (f ++ "[" ++ toString i ++ "]") m).2 = true := by
      rw [validateRequiredString_snd_irrel x _ f m]
      exact hall x (List.mem_cons_self x xs)
    simp only [jsListOfList, validateArrayItems, hx, if_true]
    rw [validateRequiredString_true _ _ _ hx]
    rw [ih (i + 1) (fun y hy => hall y (List.mem_cons_of_mem _ hy))]
    simp

set_option maxRecDepth 80000 in
/-- C1 counterexample: for a concrete input whose contact lacks `email`
(and passes every structural check), `validateResume` returns a single
error for `contact.email` of type `INVALID_TYPE` — not
`REQUIRED_FIELD_MISSING` as the claim states. -/
theorem claim_C1_counterexample :
    (validateResume missingEmailInput DEFAULT_VALIDATION_LIMITS).errors =
      [{ type := ErrorType.INVALID_TYPE, field := "contact.email",
         message := "contact.email must be a string", value := JsValue.undef }] := by
  decide

set_option maxRecDepth 80000 in
/-- Witness for C1 at the concrete `missingEmailInput`. -/
theorem claim_C1_witness :
    (validateResume missingEmailInput DEFAULT_VALIDATION_LIMITS).errors.filter
        (fun e => e.field == "contact.email") =
      [{ type := ErrorType.INVALID_TYPE, field := "contact.email",
         message := "contact.email must be a string", value := JsValue.undef }] :=
  claim_C1_missing_email_error
    (jsFieldsOfList
      [("contact", JsValue.obj (jsFieldsOfList
         [("fullName", JsValue.str "Jane Doe"),
          ("phone", JsValue.str "555-0100"),
          ("location", JsValue.str "NYC")])),
       ("summary", JsValue.obj (jsFieldsOfList [("summary", JsValue.str "Hi there")])),
       ("experience", JsValue.arr JsList.nil),
       ("education", JsValue.arr JsList.nil),
       ("skills", JsValue.obj (jsFieldsOfList
         [("skills", JsValue.arr (jsListOfList [JsValue.str "Go"]))])),
       ("projects", JsValue.arr JsList.nil)])
    (jsFieldsOfList
      [("fullName", JsValue.str "Jane Doe"),
       ("phone", JsValue.str "555-0100"),
       ("location", JsValue.str "NYC")])
    DEFAULT_VALIDATION_LIMITS (by decide) (by decide) (by decide) (by decide)

set_option maxRecDepth 80000 in
/-- C3 (amended): after the structural checks pass, validation never stops
early ACROSS sections — an input with independent faults in the contact and
summary sections reports both errors together — but WITHIN a string-array
field element validation stops at the first invalid element: an array whose
prefix validates and whose next element fails yields exactly the one error
of that first invalid element (field `name[index]`), later elements
unchecked; an array of all-valid elements yields no errors. -/
theorem claim_C3_error_accumulation :
    ((validateResume twoFaultsInput DEFAULT_VALIDATION_LIMITS).errors =
      [{ type := ErrorType.INVALID_TYPE, field := "contact.email",
         message := "contact.email must be a string", value := JsValue.undef },
       { type := ErrorType.INVALID_TYPE, field := "summary",
         message := "Professional summary must be an object",
         value := JsValue.num 5 }]) ∧
    (∀ (xs ys : List JsValue) (bad : JsValue) (f : String) (mi ml : Nat),
       xs.length + ys.length + 1 ≤ mi →
       (∀ x ∈ xs, (validateRequiredString x f ml).2 = true) →
       (validateRequiredString bad f ml).2 = false →
       validateStringArray (JsValue.arr (jsListOfList (xs ++ bad :: ys))) f mi ml =
         ((validateRequiredString bad (f ++ "[" ++ toString xs.length ++ "]") ml).1,
          false)) ∧
    (∀ (v : JsValue) (f : String) (ml : Nat),
       (validateRequiredString v f ml).2 = false →
       (validateRequiredString v f ml).1.length = 1) ∧
    (∀ (xs : List JsValue) (f : String) (mi ml : Nat),
       xs.length ≤ mi →
       (∀ x ∈ xs, (validateRequiredString x f ml).2 = true) →
       validateStringArray (JsValue.arr (jsListOfList xs)) f mi ml = ([], true)) ∧
    validateStringArray
        (JsValue.arr (jsListOfList [JsValue.str "ok", JsValue.num 1, JsValue.num 2]))
        "skills.skills" 100 1000 =
      ([{ type := ErrorType.INVALID_TYPE, field := "skills.skills[1]",
          message := "skills.skills[1] must be a string",
          value := JsValue.num 1 }], false) := by
  refine ⟨by decide, ?_, validateRequiredString_false_len, ?_, by decide⟩
  · intro xs ys bad f mi ml hlen hall hbad
    have hnot : ¬ jsListLength (jsListOfList (xs ++ bad :: ys)) > mi := by
      rw [jsListLength_ofList]
      simp only [List.length_append, List.length_cons]
      omega
    simp only [validateStringArray, if_neg hnot]
    have := validateArrayItems_first_failure f ml bad ys hbad xs 0 hall
    simpa using this
  · intro xs f mi ml hlen hall
    have hnot : ¬ jsListLength (jsListOfList xs) > mi := by
      rw [jsListLength_ofList]
      omega
    simp only [validateStringArray, if_neg hnot]
    exact validateArrayItems_all_pass f ml xs 0 hall

set_option maxRecDepth 80000 in
/-- C3 counterexample: a skills array with TWO invalid (non-string)
elements yields exactly one error — for `skills.skills[0]` only — not one
error per invalid element. -/
theorem claim_C3_counterexample :
    (validateResume twoBadSkillsInput DEFAULT_VALIDATION_LIMITS).errors =
      [{ type := ErrorType.INVALID_TYPE, field := "skills.skills[0]",
         message := "skills.skills[0] must be a string",
         value := JsValue.num 1 }] := by
  decide

/-- C7: structural failures abort with a single error — `null`/`undefined`
input yields one `REQUIRED_FIELD_MISSING`, non-object or array input one
`INVALID_TYPE`, serialized size over the ceiling one `SIZE_EXCEEDED`, and
unsafe structure (depth over the maximum or a reserved prototype-chain key)
one `DEPTH_EXCEEDED` — and for every input `isValid` is true iff the error
list is empty. -/
theorem claim_C7_structural_failures :
    (∀ limits, validateResume JsValue.null limits =
      { isValid := false,
        errors := [{ type := ErrorType.REQUIRED_FIELD_MISSING, field := "resume",
                     message := "Resume data is required" }] }) ∧
    (∀ limits, validateResume JsValue.undef limits =
      { isValid := false,
        errors := [{ type := ErrorType.REQUIRED_FIELD_MISSING, field := "resume",
                     message := "Resume data is required" }] }) ∧
    (∀ (v : JsValue) (limits : ValidationLimits),
       (!(jsTypeof v == "object") || isArrayVal v) = true →
       v ≠ JsValue.null → v ≠ JsValue.undef →
       validateResume v limits =
         { isValid := false,
           errors := [{ type := ErrorType.INVALID_TYPE, field := "resume",
                        message := "Resume data must be an object", value := v }] }) ∧
    (∀ (fields : JsFields) (limits : ValidationLimits),
       getJsonSize (JsValue.obj fields) > limits.maxJsonSize →
       validateResume (JsValue.obj fields) limits =
         { isValid := false,
           errors := [{ type := ErrorType.SIZE_EXCEEDED, field := "resume",
                        message := "Resume data exceeds maximum size of " ++
                          toString limits.maxJsonSize ++ " bytes",
                        value := JsValue.num (getJsonSize (JsValue.obj fields)) }] }) ∧
    (∀ (fields : JsFields) (limits : ValidationLimits),
       getJsonSize (JsValue.obj fields) ≤ limits.maxJsonSize →
       isStructureSafe (JsValue.obj fields) limits.maxObjectDepth = false →
       validateResume (JsValue.obj fields) limits =
         { isValid := false,
           errors := [{ type := ErrorType.DEPTH_EXCEEDED, field := "resume",
                        message := "Resume data structure is unsafe or exceeds maximum depth of " ++
                          toString limits.maxObjectDepth }] }) ∧
    (∀ (v : JsValue) (limits : ValidationLimits),
       (validateResume v limits).isValid = (validateResume v limits).errors.isEmpty) ∧
    (validateResume (JsValue.obj (JsFields.cons "a" (JsValue.str "b") JsFields.nil))
        { DEFAULT_VALIDATION_LIMITS with maxJsonSize := 5 } =
      { isValid := false,
        errors := [{ type := ErrorType.SIZE_EXCEEDED, field := "resume",
                     message := "Resume data exceeds maximum size of 5 bytes",
                     value := JsValue.num 9 }] }) ∧
    (validateResume (JsFields.cons "a" (JsValue.obj JsFields.nil) JsFields.nil
        |> JsValue.obj)
        { DEFAULT_VALIDATION_LIMITS with maxObjectDepth := 0 } =
      { isValid := false,
        errors := [{ type := ErrorType.DEPTH_EXCEEDED, field := "resume",
                     message := "Resume data structure is unsafe or exceeds maximum depth of 0" }] }) := by
  refine ⟨fun _ => rfl, fun _ => rfl, ?_, ?_, ?_, ?_, by decide, by decide⟩
  · intro v limits hcond hnull hundef
    cases v <;> simp only [validateResume]
    case null => exact absurd rfl hnull
    case undef => exact absurd rfl hundef
    case bool b => rw [if_pos (by simp [jsTypeof, isArrayVal])]
    case num n => rw [if_pos (by simp [jsTypeof, isArrayVal])]
    case str s => rw [if_pos (by simp [jsTypeof, isArrayVal])]
    case arr elems => rw [if_pos (by simp [jsTypeof, isArrayVal])]
    case obj fields => simp [jsTypeof, isArrayVal] at hcond
  · intro fields limits hsize
    simp only [validateResume]
    rw [if_neg (by simp [jsTypeof, isArrayVal]), if_pos hsize]
  · intro fields limits hsize hsafe
    simp only [validateResume]
    rw [if_neg (by simp [jsTypeof, isArrayVal]), if_neg (by omega),
      if_pos (by simp [hsafe])]
  · intro v limits
    cases v <;> simp only [validateResume]
    case bool b => split_ifs <;> simp
    case num n => split_ifs <;> simp
    case str s => split_ifs <;> simp
    case arr elems => split_ifs <;> simp
    case obj fields => split_ifs <;> simp
    all_goals simp

/-! ### Renderer page breaks and order preservation (C8, C10) -/

set_option maxRecDepth 40000 in
/-- C8: whenever the space remaining between the cursor and the bottom
margin is less than the required-space threshold of the element about to be
drawn, `checkPageBreak` starts a new page and resets the cursor to exactly
the top margin (54 points); otherwise it leaves the state untouched.  For a
sequence of 47 body text lines under the `normal` density — whose
cumulative height slightly exceeds one page's 684-point content height —
exactly one new page is started (and none for 46 lines, which fit). -/
theorem claim_C8_page_breaks :
    PAGE_CONFIG.marginTop = (54 : ℚ) ∧
    (∀ (s : RendererState) (requiredSpace : ℚ),
       PAGE_CONFIG.height - PAGE_CONFIG.marginBottom - s.currentY < requiredSpace →
       checkPageBreak s requiredSpace =
         { currentY := PAGE_CONFIG.marginTop, pages := s.pages + 1,
           isFirstTextLine := s.isFirstTextLine }) ∧
    (∀ (s : RendererState) (requiredSpace : ℚ),
       ¬(PAGE_CONFIG.height - PAGE_CONFIG.marginBottom - s.currentY < requiredSpace) →
       checkPageBreak s requiredSpace = s) ∧
    (renderPureElements normalPreset (List.replicate 47 PureElement.textLineE)
       initialRendererState).pages = 1 ∧
    (renderPureElements normalPreset (List.replicate 46 PureElement.textLineE)
       initialRendererState).pages = 0 := by
  refine ⟨rfl, ?_, ?_, by decide, by decide⟩
  · intro s requiredSpace h
    simp only [checkPageBreak, if_pos h]
  · intro s requiredSpace h
    simp only [checkPageBreak, if_neg h]

/-- Witness for C8's break branch at a concrete state: cursor 730 leaves 8
points, below a 13-point threshold, so a page is added and the cursor
returns to the top margin. -/
theorem claim_C8_witness :
    (PAGE_CONFIG.height - PAGE_CONFIG.marginBottom -
        (730 : ℚ) < 13) ∧
    checkPageBreak { currentY := 730, pages := 0, isFirstTextLine := false } 13 =
      { currentY := PAGE_CONFIG.marginTop, pages := 1, isFirstTextLine := false } := by
  constructor
  · decide
  · exact (claim_C8_page_breaks.2.1 _ 13 (by decide))

theorem checkMonotoneFrom_enumFrom (f : DocumentElement → String) :
    ∀ (l : List DocumentElement) (n i : Nat),
      checkMonotoneFrom i ((List.enumFrom n l).map (fun p => (p.1, f p.2))) =
        Except.ok () := by
  intro l
  induction l with
  | nil => intro n i; rfl
  | cons a rest ih =>
    intro n i
    cases rest with
    | nil => rfl
    | cons b t =>
      simp only [List.enumFrom, List.map]
      simp only [checkMonotoneFrom]
      rw [if_neg (by omega)]
      exact ih (n + 1) (i + 1)

theorem foldl_append_acc (l : List DocumentElement) :
    ∀ acc : List DocumentElement,
      l.foldl (fun acc e => acc ++ [e]) acc = acc ++ l := by
  induction l with
  | nil => intro acc; simp
  | cons a rest ih =>
    intro acc
    simp only [List.foldl_cons]
    rw [ih]
    simp

/-- C10: `verifyElementOrderPreservation` never throws — the index
sequence it checks is produced by enumerating the element array, so its
indices are strictly increasing by construction and the fatal "ATS
invariant violated" branch is unreachable for every document; the render
loop then dispatches elements in exactly array order. -/
theorem claim_C10_order_check :
    (∀ doc : Document, verifyElementOrderPreservation doc = Except.ok ()) ∧
    (∀ doc : Document, renderDispatchTrace doc = doc.elements) := by
  constructor
  · intro doc
    unfold verifyElementOrderPreservation
    exact checkMonotoneFrom_enumFrom elementTypeTag doc.elements 0 1
  · intro doc
    unfold renderDispatchTrace
    rw [foldl_append_acc]
    simp

end QuickCV
